import Mathlib

/-!
Shallow embedding of the vcluster operation engine (package `vclusterops`)
and proofs about its operations.

Conventions used throughout:

* Go maps (`map[string]T`) are embedded as association lists
  `List (String × T)`; `mapInsert` mirrors Go's `m[k] = v` (replacing the
  value when the key is present, appending otherwise) and `mapLookup`
  mirrors `m[k]`.  Iterating a Go map visits each key once in an
  unspecified order; an embedding over an association list fixes one such
  linearization, and theorems quantify over the list, hence over every
  possible iteration order.
* Go's `error` values combined with `errors.Join` are embedded as
  `List ErrAtom`, where the empty list plays the role of `nil` and
  `errors.Join` is concatenation (`errors.Join` drops `nil` operands and
  returns `nil` iff all operands are `nil`, exactly as `++` with `[]`).
  Each `fmt.Errorf` call site gets its own `ErrAtom` constructor carrying
  the values interpolated into its format string.
* JSON decoding (`json.Unmarshal` via `parseAndCheckResponse`) is embedded
  by carrying the decode outcome in the per-host result: `content` is
  `none` when the body does not parse, `some d` when it parses to the
  descriptor `d`.
-/

namespace VCluster

/-- Status class of one per-host HTTP outcome.  The concrete
`hostHTTPResult` type is defined outside the sources at hand; modelled
from the spec's data model: status-class is one of
passing / failure / unauthorized / eof / exception. -/
inductive ResultStatus where
  | passing
  | failure
  | unauthorized
  | eofClass
  | exceptionClass
deriving DecidableEq, Repr

/-- One atomic Go error.  Each constructor corresponds to one `fmt.Errorf`
call site (or to an abstract per-host transport error) and carries exactly
the values that the source interpolates into the format string. -/
inductive ErrAtom where
  /-- an abstract per-host `result.err` payload (transport error etc.) -/
  | hostErr (host msg : String)
  /-- read-catalog / replication: fail to parse result on host -/
  | parseFailErr (opName host : String)
  /-- read-catalog: fail to convert spread Version to integer -/
  | convertErr (opName host : String)
  /-- read-catalog: cannot find any host with the latest catalog -/
  | noLatestCatalogErr (opName : String)
  /-- load-remote-catalog: fail to load remote catalog on host -/
  | loadCatalogFailErr (opName host : String)
  /-- load-remote-catalog: HTTPS call failed on host -/
  | httpsCallFailErr (opName host : String)
  /-- load-remote-catalog: fail to load catalog on enough primary nodes;
  the format string interpolates only the success count -/
  | quorumErr (opName : String) (successCount : Nat)
  /-- generic note joined on by `appendHTTPSFailureError` -/
  | httpsOpFailedErr
  /-- replication: response detail mismatch -/
  | detailMismatchErr (opName expected got : String)
  /-- dispatcher: host is not found in the adapter pool -/
  | hostNotInPoolErr (host : String)
  /-- read-catalog prepare: cannot find catalog path of host -/
  | catalogPathNotFoundErr (opName host : String)
  /-- read-catalog prepare: cannot find the initiator host in the vdb -/
  | initiatorNotFoundErr (opName host : String)
  /-- replication prepare: cannot find any hosts in the exec context -/
  | noHostsInExecContextErr (opName : String)
  /-- replication prepare: cannot find any up hosts in the source db -/
  | noUpHostsErr (opName sourceDB : String)
  /-- replication prepare: cannot find any up hosts in the sandbox -/
  | noUpHostsInSandboxErr (opName sandbox : String)
deriving DecidableEq, Repr

/-- A Go `error` value built with `errors.Join`: the empty list is `nil`. -/
abbrev GoErr := List ErrAtom

/-- Whether an error atom carries the natural number `n` as one of the
values interpolated into its format string.  The only atom with a numeric
argument is the quorum error, which interpolates the success count. -/
def ErrAtom.mentionsNat : ErrAtom → Nat → Bool
  | .quorumErr _ s, n => s == n
  | _, _ => false

/-- Digits of a decimal literal, most significant first, accumulated into
a natural number; `none` if the list is empty or has a non-digit. -/
def decDigitsToNat : List Char → Option Nat
  | [] => none
  | [c] => if c.isDigit then some (c.toNat - '0'.toNat) else none
  | c :: rest =>
    if c.isDigit then
      match decDigitsToNat rest with
      | some n =>
        some ((c.toNat - '0'.toNat) * 10 ^ rest.length + n)
      | none => none
    else none

/-- Embedding of `json.Number.Int64()`, i.e. `strconv.ParseInt(s, 10, 64)`:
an optional sign followed by at least one decimal digit, rejected when the
value does not fit in a signed 64-bit integer. -/
def jsonNumberInt64 (s : String) : Option Int :=
  match s.data with
  | '+' :: rest =>
    (decDigitsToNat rest).bind fun n =>
      if n ≤ 2 ^ 63 - 1 then some (Int.ofNat n) else none
  | '-' :: rest =>
    (decDigitsToNat rest).bind fun n =>
      if n ≤ 2 ^ 63 then some (-(Int.ofNat n)) else none
  | l =>
    (decDigitsToNat l).bind fun n =>
      if n ≤ 2 ^ 63 - 1 then some (Int.ofNat n) else none

/-- Go map assignment `m[k] = v` on the association-list embedding:
replace the value when the key is present, append otherwise. -/
def mapInsert {β : Type} (m : List (String × β)) (k : String) (v : β) :
    List (String × β) :=
  if (m.map Prod.fst).contains k then
    m.map fun p => if p.1 = k then (k, v) else p
  else m ++ [(k, v)]

/-- Go map read `m[k]` on the association-list embedding (first match). -/
def mapLookup {β : Type} : List (String × β) → String → Option β
  | [], _ => none
  | p :: rest, k => if p.1 = k then some p.2 else mapLookup rest k

/-! ### The catalog descriptor (`nma_read_catalog_editor_op.go`)

`nmaVersions`, `nmaVNode` and `nmaVDatabase` carry the fields of the
source structs that are consulted by the operations verified here; the
remaining fields are decoded from JSON but never read by any modelled
code path. -/

/-- The `versions` object of a catalog descriptor.  Each field is a
`json.Number`, i.e. the raw decimal string. -/
structure NmaVersions where
  Global : String := ""
  LocalVer : String := ""
  Session : String := ""
  Spread : String := ""
  Transaction : String := ""
  TwoPhaseID : String := ""
deriving DecidableEq, Repr

/-- One node entry of a catalog descriptor. -/
structure NmaVNode where
  Address : String := ""
  CatalogPath : String := ""
  IsEphemeral : Bool := false
  IsPrimary : Bool := false
  Name : String := ""
  StorageLocations : List String := []
deriving DecidableEq, Repr

/-- A parsed catalog descriptor (`nmaVDatabase`).  `HostNodeMap` and
`PrimaryNodeCount` are not part of the JSON payload; `json.Unmarshal`
leaves them at their zero values and `processResult` fills them in. -/
structure NmaVDatabase where
  Name : String := ""
  Versions : NmaVersions := {}
  Nodes : List NmaVNode := []
  HostNodeMap : List (String × NmaVNode) := []
  ControlMode : String := ""
  CommunalStorageLocation : String := ""
  PrimaryNodeCount : Nat := 0
deriving DecidableEq, Repr

/-- The zero value of `nmaVDatabase` (what `var latestNmaVDB nmaVDatabase`
declares before any assignment). -/
def nmaVDatabaseZero : NmaVDatabase := {}

/-- The host-to-node map derived in `processResult`: one pass over
`Nodes`, keyed by each node's address. -/
def buildHostNodeMap (nodes : List NmaVNode) : List (String × NmaVNode) :=
  nodes.foldl (fun m n => mapInsert m n.Address n) []

/-- The primary-node count derived in `processResult`: the number of
nodes with `is_primary` true (counted in the same pass as the map). -/
def countPrimaryNodes (nodes : List NmaVNode) : Nat :=
  nodes.countP (·.IsPrimary)

/-- The descriptor as `processResult` stores it: the parsed value with
the derived `HostNodeMap` and `PrimaryNodeCount` filled in. -/
def enrichNmaVDB (d : NmaVDatabase) : NmaVDatabase :=
  { d with
    HostNodeMap := buildHostNodeMap d.Nodes
    PrimaryNodeCount := countPrimaryNodes d.Nodes }

/-- One per-host result of the read-catalog fan-out.  `content` is the
outcome of `parseAndCheckResponse` on the response body; `err` is
`result.err`. -/
structure CatalogResult where
  status : ResultStatus := .passing
  content : Option NmaVDatabase := none
  err : GoErr := []
deriving DecidableEq, Repr

/-- Loop state of `nmaReadCatalogEditorOp.processResult`: the joined
errors, the running winner list, the running maximum global version
(a zero-initialized `int64`), and the saved descriptor. -/
structure ReadCatalogState where
  allErrs : GoErr := []
  hostsWithLatestCatalog : List String := []
  maxGlobalVersion : Int := 0
  latestNmaVDB : NmaVDatabase := {}
deriving DecidableEq, Repr

/-- Initial loop state of `processResult` (all Go zero values). -/
def readCatalogInit : ReadCatalogState := {}

/-- One iteration of the `processResult` loop over the result collection,
translated clause by clause from the source. -/
def readCatalogStep (opName : String) (s : ReadCatalogState)
    (e : String × CatalogResult) : ReadCatalogState :=
  let host := e.1
  let result := e.2
  match result.status with
  | .passing =>
    match result.content with
    | none => { s with allErrs := s.allErrs ++ [.parseFailErr opName host] }
    | some nmaVDB =>
      let enriched := enrichNmaVDB nmaVDB
      match jsonNumberInt64 nmaVDB.Versions.Global with
      | none => { s with allErrs := s.allErrs ++ [.convertErr opName host] }
      | some globalVersion =>
        if s.maxGlobalVersion < globalVersion then
          { s with
            hostsWithLatestCatalog := [host]
            maxGlobalVersion := globalVersion
            latestNmaVDB := enriched }
        else if globalVersion = s.maxGlobalVersion then
          { s with hostsWithLatestCatalog := s.hostsWithLatestCatalog ++ [host] }
        else s
  | _ => { s with allErrs := s.allErrs ++ result.err }

/-- The whole `processResult` loop over the result collection. -/
def readCatalogFold (opName : String)
    (results : List (String × CatalogResult)) : ReadCatalogState :=
  results.foldl (readCatalogStep opName) readCatalogInit

/-- `nmaReadCatalogEditorOp.processResult`.  The first component is what
gets published to the exec context (`hostsWithLatestCatalog` and
`nmaVDatabase`), `none` when nothing is published; the second component
is the returned error (`[]` is Go's `nil`). -/
def readCatalogProcessResult (opName : String)
    (results : List (String × CatalogResult)) :
    Option (List String × NmaVDatabase) × GoErr :=
  let s := readCatalogFold opName results
  if s.hostsWithLatestCatalog = [] then
    (none, s.allErrs ++ [.noLatestCatalogErr opName])
  else
    (some (s.hostsWithLatestCatalog, s.latestNmaVDB), s.allErrs)

/-- The global version that one result contributes to the election:
`some g` exactly when the result passes, its body parses, and
`versions.global` converts to an integer. -/
def parsedGlobal (e : String × CatalogResult) : Option Int :=
  match e.2.status, e.2.content with
  | .passing, some d => jsonNumberInt64 d.Versions.Global
  | _, _ => none

/-- All global versions of successfully parsed descriptors, in iteration
order. -/
def parsedGlobals (results : List (String × CatalogResult)) : List Int :=
  results.filterMap parsedGlobal

/-- The error atoms one result contributes to `allErrs`. -/
def catalogResultErrAtoms (opName : String) (e : String × CatalogResult) :
    GoErr :=
  match e.2.status with
  | .passing =>
    match e.2.content with
    | none => [.parseFailErr opName e.1]
    | some d =>
      match jsonNumberInt64 d.Versions.Global with
      | none => [.convertErr opName e.1]
      | some _ => []
  | _ => e.2.err

/-- The joined per-host errors of the whole result collection. -/
def readCatalogErrors (opName : String)
    (results : List (String × CatalogResult)) : GoErr :=
  results.foldl (fun acc e => acc ++ catalogResultErrAtoms opName e) []

example : jsonNumberInt64 "12" = some 12 := by decide
example : jsonNumberInt64 "-1" = some (-1) := by decide
example : jsonNumberInt64 "" = none := by decide
example : jsonNumberInt64 "1x" = none := by decide
example : jsonNumberInt64 "007" = some 7 := by decide

/-! ### Facts about the election fold -/

theorem le_foldl_max (l : List Int) (init : Int) : init ≤ l.foldl max init := by
  induction l generalizing init with
  | nil => exact le_refl _
  | cons a l ih =>
    calc init ≤ max init a := le_max_left _ _
    _ ≤ l.foldl max (max init a) := ih _

theorem foldl_max_le_of_mem {l : List Int} {a : Int} (init : Int)
    (h : a ∈ l) : a ≤ l.foldl max init := by
  induction l generalizing init with
  | nil => cases h
  | cons b l ih =>
    rcases List.mem_cons.mp h with rfl | h'
    · calc a ≤ max init a := le_max_right _ _
      _ ≤ l.foldl max (max init a) := le_foldl_max _ _
    · exact ih _ h'

theorem foldl_max_eq_of_all_le {l : List Int} {init : Int}
    (h : ∀ g ∈ l, g ≤ init) : l.foldl max init = init := by
  induction l with
  | nil => rfl
  | cons a l ih =>
    have ha : a ≤ init := h a (List.mem_cons_self _ _)
    have : max init a = init := max_eq_left ha
    simp only [List.foldl_cons, this]
    exact ih fun g hg => h g (List.mem_cons_of_mem _ hg)

/-- Characterization of a result that contributes a global version. -/
theorem parsedGlobal_some {e : String × CatalogResult} {g : Int} :
    parsedGlobal e = some g ↔
      e.2.status = .passing ∧
        ∃ d, e.2.content = some d ∧
          jsonNumberInt64 d.Versions.Global = some g := by
  unfold parsedGlobal
  cases hst : e.2.status <;> cases hc : e.2.content <;>
    simp [hst, hc]

/-- How one loop iteration acts on a contributing result. -/
theorem readCatalogStep_parsed (opName : String) (s : ReadCatalogState)
    (e : String × CatalogResult) (d : NmaVDatabase) (g : Int)
    (hst : e.2.status = .passing) (hc : e.2.content = some d)
    (hg : jsonNumberInt64 d.Versions.Global = some g) :
    readCatalogStep opName s e =
      if s.maxGlobalVersion < g then
        { s with
          hostsWithLatestCatalog := [e.1]
          maxGlobalVersion := g
          latestNmaVDB := enrichNmaVDB d }
      else if g = s.maxGlobalVersion then
        { s with hostsWithLatestCatalog := s.hostsWithLatestCatalog ++ [e.1] }
      else s := by
  simp only [readCatalogStep, hst, hc, hg]

/-- How one loop iteration acts on a non-contributing result. -/
theorem readCatalogStep_err (opName : String) (s : ReadCatalogState)
    (e : String × CatalogResult) (h : parsedGlobal e = none) :
    readCatalogStep opName s e =
      { s with allErrs := s.allErrs ++ catalogResultErrAtoms opName e } := by
  unfold parsedGlobal at h
  cases hst : e.2.status <;> rw [hst] at h
  case passing =>
    cases hc : e.2.content <;> rw [hc] at h
    · simp only [readCatalogStep, catalogResultErrAtoms, hst, hc]
    · rename_i d
      cases hcv : jsonNumberInt64 d.Versions.Global
      · simp only [readCatalogStep, catalogResultErrAtoms, hst, hc, hcv]
      · have h' : jsonNumberInt64 d.Versions.Global = none := h
        rw [hcv] at h'
        exact absurd h' (by simp)
  all_goals
    simp only [readCatalogStep, catalogResultErrAtoms, hst]

theorem catalogResultErrAtoms_of_parsed {opName : String}
    {e : String × CatalogResult} {g : Int} (h : parsedGlobal e = some g) :
    catalogResultErrAtoms opName e = [] := by
  rcases parsedGlobal_some.mp h with ⟨hst, d, hc, hg⟩
  simp only [catalogResultErrAtoms, hst, hc, hg]

/-- Master invariant of the election loop.  For every iteration order of
the result collection: the running maximum is the maximum of 0 and the
contributed global versions; the winner list is empty iff every
contributed version is negative; every winner contributed exactly the
final maximum; the winner list preserves the iteration order; when the
final maximum is positive the saved descriptor is the enrichment of a
winner's parsed descriptor; and the joined errors are exactly the
per-result error atoms in iteration order. -/
theorem readCatalogFold_inv (opName : String)
    (results : List (String × CatalogResult)) :
    (readCatalogFold opName results).maxGlobalVersion =
        (parsedGlobals results).foldl max 0
    ∧ ((readCatalogFold opName results).hostsWithLatestCatalog = [] ↔
        ∀ g ∈ parsedGlobals results, g < 0)
    ∧ (∀ h ∈ (readCatalogFold opName results).hostsWithLatestCatalog,
        ∃ r d g, (h, r) ∈ results ∧ r.status = .passing ∧
          r.content = some d ∧
          jsonNumberInt64 d.Versions.Global = some g ∧
          g = (readCatalogFold opName results).maxGlobalVersion)
    ∧ (readCatalogFold opName results).hostsWithLatestCatalog.Sublist
        (results.map Prod.fst)
    ∧ (1 ≤ (readCatalogFold opName results).maxGlobalVersion →
        ∃ h r d, h ∈ (readCatalogFold opName results).hostsWithLatestCatalog ∧
          (h, r) ∈ results ∧ r.status = .passing ∧ r.content = some d ∧
          jsonNumberInt64 d.Versions.Global =
            some (readCatalogFold opName results).maxGlobalVersion ∧
          (readCatalogFold opName results).latestNmaVDB = enrichNmaVDB d)
    ∧ (readCatalogFold opName results).allErrs =
        readCatalogErrors opName results := by
  induction results using List.reverseRecOn with
  | nil =>
    refine ⟨rfl, by simp [readCatalogFold, readCatalogInit, parsedGlobals], ?_, ?_, ?_, rfl⟩
    · intro h hmem; simp [readCatalogFold, readCatalogInit] at hmem
    · simp [readCatalogFold, readCatalogInit]
    · intro hle; simp [readCatalogFold, readCatalogInit] at hle
  | append_singleton l x ih =>
    obtain ⟨ihMax, ihEmpty, ihMem, ihSub, ihLatest, ihErrs⟩ := ih
    have hfold : readCatalogFold opName (l ++ [x]) =
        readCatalogStep opName (readCatalogFold opName l) x := by
      unfold readCatalogFold
      exact List.foldl_concat _ _ _ _
    have hpg : parsedGlobals (l ++ [x]) =
        parsedGlobals l ++ (parsedGlobal x).toList := by
      unfold parsedGlobals
      rw [List.filterMap_append]
      cases hx : parsedGlobal x <;> simp [List.filterMap, hx]
    have herrs : readCatalogErrors opName (l ++ [x]) =
        readCatalogErrors opName l ++ catalogResultErrAtoms opName x := by
      unfold readCatalogErrors
      exact List.foldl_concat _ _ _ _
    have hmax0 : 0 ≤ (readCatalogFold opName l).maxGlobalVersion := by
      rw [ihMax]; exact le_foldl_max _ _
    cases hx : parsedGlobal x with
    | none =>
      rw [hfold, readCatalogStep_err opName _ x hx]
      have hpg' : parsedGlobals (l ++ [x]) = parsedGlobals l := by
        rw [hpg, hx]; simp
      refine ⟨?_, ?_, ?_, ?_, ?_, ?_⟩
      · simpa [hpg'] using ihMax
      · simpa [hpg'] using ihEmpty
      · intro h hmem
        obtain ⟨r, d, g, hrl, h1, h2, h3, h4⟩ := ihMem h hmem
        exact ⟨r, d, g, List.mem_append_left _ hrl, h1, h2, h3, h4⟩
      · simp only [List.map_append]
        exact ihSub.trans (List.sublist_append_left _ _)
      · intro hle
        obtain ⟨h, r, d, hmem, hrl, h1, h2, h3, h4⟩ := ihLatest hle
        exact ⟨h, r, d, hmem, List.mem_append_left _ hrl, h1, h2, h3, h4⟩
      · rw [herrs, ihErrs]
    | some g =>
      rcases parsedGlobal_some.mp hx with ⟨hst, d, hc, hg⟩
      rw [hfold, readCatalogStep_parsed opName _ x d g hst hc hg]
      have hpg' : parsedGlobals (l ++ [x]) = parsedGlobals l ++ [g] := by
        rw [hpg, hx]; rfl
      have hxmem : (x.1, x.2) ∈ l ++ [x] := by
        simp
      by_cases hlt : (readCatalogFold opName l).maxGlobalVersion < g
      · -- strictly larger version: winners reset to this host
        rw [if_pos hlt]
        have hg0 : 0 ≤ g := le_of_lt (lt_of_le_of_lt hmax0 hlt)
        refine ⟨?_, ?_, ?_, ?_, ?_, ?_⟩
        · simp only [hpg', List.foldl_append, List.foldl_cons, List.foldl_nil, ← ihMax]
          exact (max_eq_right (le_of_lt hlt)).symm
        · simp only [hpg']
          constructor
          · intro h
            exact absurd h (by simp)
          · intro hall
            exact absurd (hall g (by simp)) (by omega)
        · intro h hmem
          simp only [List.mem_singleton] at hmem
          subst hmem
          exact ⟨x.2, d, g, hxmem, hst, hc, hg, rfl⟩
        · simp only [List.map_append]
          exact List.sublist_append_right _ _
        · intro _
          exact ⟨x.1, x.2, d, List.mem_singleton_self _, hxmem, hst, hc, hg, rfl⟩
        · simp only [herrs, ihErrs, catalogResultErrAtoms_of_parsed hx, List.append_nil]
      · rw [if_neg hlt]
        by_cases heq : g = (readCatalogFold opName l).maxGlobalVersion
        · -- tie with the running maximum: host appended to the winners
          rw [if_pos heq]
          have hg0 : 0 ≤ g := heq ▸ hmax0
          refine ⟨?_, ?_, ?_, ?_, ?_, ?_⟩
          · simp only [hpg', List.foldl_append, List.foldl_cons, List.foldl_nil, ← ihMax]
            rw [heq, max_self]
          · simp only [hpg']
            constructor
            · intro h
              exact absurd h (by simp)
            · intro hall
              exact absurd (hall g (by simp)) (by omega)
          · intro h hmem
            rcases List.mem_append.mp hmem with hold | hnew
            · obtain ⟨r, d', g', hrl, h1, h2, h3, h4⟩ := ihMem h hold
              exact ⟨r, d', g', List.mem_append_left _ hrl, h1, h2, h3, h4⟩
            · simp only [List.mem_singleton] at hnew
              subst hnew
              exact ⟨x.2, d, g, hxmem, hst, hc, hg, heq⟩
          · simp only [List.map_append]
            exact List.Sublist.append ihSub (List.Sublist.refl _)
          · intro hle
            obtain ⟨h, r, d', hmem, hrl, h1, h2, h3, h4⟩ := ihLatest hle
            exact ⟨h, r, d', List.mem_append_left _ hmem,
              List.mem_append_left _ hrl, h1, h2, h3, h4⟩
          · simp only [herrs, ihErrs, catalogResultErrAtoms_of_parsed hx, List.append_nil]
        · -- strictly smaller version: state unchanged
          rw [if_neg heq]
          have hglt : g < (readCatalogFold opName l).maxGlobalVersion := by
            omega
          refine ⟨?_, ?_, ?_, ?_, ?_, ?_⟩
          · simp only [hpg', List.foldl_append, List.foldl_cons, List.foldl_nil, ← ihMax]
            exact (max_eq_left (le_of_lt hglt)).symm
          · simp only [hpg']
            constructor
            · intro h g' hg'
              rcases List.mem_append.mp hg' with h1 | h2
              · exact ihEmpty.mp h g' h1
              · simp only [List.mem_singleton] at h2
                subst h2
                have hall := ihEmpty.mp h
                have hz : (parsedGlobals l).foldl max 0 = 0 := by
                  apply foldl_max_eq_of_all_le
                  intro a ha
                  exact le_of_lt (lt_of_lt_of_le (hall a ha) (by omega))
                rw [ihMax, hz] at hglt
                exact hglt
            · intro hall
              apply ihEmpty.mpr
              intro g' hg'
              exact hall g' (List.mem_append_left _ hg')
          · intro h hmem
            obtain ⟨r, d', g', hrl, h1, h2, h3, h4⟩ := ihMem h hmem
            exact ⟨r, d', g', List.mem_append_left _ hrl, h1, h2, h3, h4⟩
          · simp only [List.map_append]
            exact ihSub.trans (List.sublist_append_left _ _)
          · intro hle
            obtain ⟨h, r, d', hmem, hrl, h1, h2, h3, h4⟩ := ihLatest hle
            exact ⟨h, r, d', hmem, List.mem_append_left _ hrl, h1, h2, h3, h4⟩
          · simp only [herrs, ihErrs, catalogResultErrAtoms_of_parsed hx, List.append_nil]

/-- What `processResult` publishes, as a function of the final loop state. -/
theorem readCatalogProcessResult_published (opName : String)
    (results : List (String × CatalogResult)) :
    (readCatalogProcessResult opName results).1 =
      if (readCatalogFold opName results).hostsWithLatestCatalog = [] then
        none
      else
        some ((readCatalogFold opName results).hostsWithLatestCatalog,
          (readCatalogFold opName results).latestNmaVDB) := by
  unfold readCatalogProcessResult
  by_cases h : (readCatalogFold opName results).hostsWithLatestCatalog = [] <;>
    simp [h]

/-- What `processResult` returns, as a function of the final loop state. -/
theorem readCatalogProcessResult_retErr (opName : String)
    (results : List (String × CatalogResult)) :
    (readCatalogProcessResult opName results).2 =
      if (readCatalogFold opName results).hostsWithLatestCatalog = [] then
        (readCatalogFold opName results).allErrs ++ [.noLatestCatalogErr opName]
      else
        (readCatalogFold opName results).allErrs := by
  unfold readCatalogProcessResult
  by_cases h : (readCatalogFold opName results).hostsWithLatestCatalog = [] <;>
    simp [h]

theorem readCatalogErrors_eq_flatten (opName : String)
    (results : List (String × CatalogResult)) :
    readCatalogErrors opName results =
      (results.map (catalogResultErrAtoms opName)).flatten := by
  have gen : ∀ (l : List (String × CatalogResult)) (acc : GoErr),
      l.foldl (fun acc e => acc ++ catalogResultErrAtoms opName e) acc =
        acc ++ (l.map (catalogResultErrAtoms opName)).flatten := by
    intro l
    induction l with
    | nil => intro acc; simp
    | cons e l ih =>
      intro acc
      simp only [List.foldl_cons, List.map_cons, List.flatten_cons, ih,
        List.append_assoc]
  simpa using gen results []

theorem readCatalogErrors_eq_nil_iff (opName : String)
    (results : List (String × CatalogResult)) :
    readCatalogErrors opName results = [] ↔
      ∀ e ∈ results, catalogResultErrAtoms opName e = [] := by
  rw [readCatalogErrors_eq_flatten, List.flatten_eq_nil_iff]
  constructor
  · intro hall e he
    exact hall _ (List.mem_map_of_mem _ he)
  · intro hall l hl
    rcases List.mem_map.mp hl with ⟨e, he, rfl⟩
    exact hall e he

/-- Every pair in a `mapInsert`-built map satisfies a property that holds
for the pairs inserted. -/
theorem mapInsert_forall {β : Type} {P : String × β → Prop}
    {m : List (String × β)} {k : String} {v : β}
    (hm : ∀ kv ∈ m, P kv) (hkv : P (k, v)) :
    ∀ kv ∈ mapInsert m k v, P kv := by
  unfold mapInsert
  split
  · intro kv hkv'
    rcases List.mem_map.mp hkv' with ⟨p, hp, heq⟩
    by_cases h : p.1 = k
    · rw [if_pos h] at heq
      exact heq ▸ hkv
    · rw [if_neg h] at heq
      exact heq ▸ hm p hp
  · intro kv hkv'
    rcases List.mem_append.mp hkv' with h | h
    · exact hm kv h
    · simp only [List.mem_singleton] at h
      exact h ▸ hkv

/-- Every entry of the derived host-to-node map is keyed by its node's
address. -/
theorem buildHostNodeMap_key_eq_address (nodes : List NmaVNode) :
    ∀ kv ∈ buildHostNodeMap nodes, kv.1 = kv.2.Address := by
  have gen : ∀ (l : List NmaVNode) (m : List (String × NmaVNode)),
      (∀ kv ∈ m, kv.1 = kv.2.Address) →
        ∀ kv ∈ l.foldl (fun m n => mapInsert m n.Address n) m,
          kv.1 = kv.2.Address := by
    intro l
    induction l with
    | nil => intro m hm; exact hm
    | cons n l ih =>
      intro m hm
      exact ih _ (mapInsert_forall hm rfl)
  intro kv hkv
  exact gen nodes [] (by intro kv h; cases h) kv hkv

/-! ### Concrete fixtures for the election -/

/-- Descriptor with global version 10 (host A of scenario S1). -/
def descrA : NmaVDatabase := { Name := "test_db", Versions := { Global := "10" } }

/-- Descriptor with global version 12 (host B of scenario S1); carries a
node entry so that the derived map and count are visible. -/
def descrB : NmaVDatabase :=
  { Name := "test_db", Versions := { Global := "12" },
    Nodes := [{ Address := "192.168.1.101", Name := "v_test_db_node0001",
                IsPrimary := true, CatalogPath := "/catalog/n1" }] }

/-- Descriptor with global version 12 (host C of scenario S1). -/
def descrC : NmaVDatabase := { Name := "test_db", Versions := { Global := "12" } }

/-- Descriptor whose global version is the decimal string "-1": it passes
and parses, and the version converts to the integer -1. -/
def descrNeg : NmaVDatabase := { Name := "test_db", Versions := { Global := "-1" } }

/-- Descriptor whose global version is the decimal string "0". -/
def descrZero : NmaVDatabase :=
  { Name := "test_db", Versions := { Global := "0" },
    Nodes := [{ Address := "192.168.1.102", Name := "v_test_db_node0002",
                IsPrimary := true, CatalogPath := "/catalog/n2" }] }

/-- Scenario S1: hosts B, C, A answering with globals 12, 12, 10, with B
encountered first. -/
def electionS1 : List (String × CatalogResult) :=
  [("B", { content := some descrB }),
   ("C", { content := some descrC }),
   ("A", { content := some descrA })]

/-- A single host whose descriptor parses but has a negative global. -/
def electionNeg : List (String × CatalogResult) :=
  [("h1", { content := some descrNeg })]

/-- A single host whose descriptor parses with global version 0. -/
def electionZero : List (String × CatalogResult) :=
  [("h1", { content := some descrZero })]

/-- One failing host and one passing host with a positive global. -/
def electionMix : List (String × CatalogResult) :=
  [("a", { status := .failure, content := none, err := [.hostErr "a" "connection refused"] }),
   ("b", { content := some descrB })]

/-! ### Claim C1 -/

/-- C1, counterexample: a result collection with one host whose response
passes, parses, and whose `versions.global` converts to the integer -1
(so `parsedGlobals` is `[-1]`: exactly one parseable descriptor), yet the
published `hostsWithLatestCatalog` is empty (`processResult` publishes
nothing).  The claimed "non-empty iff at least one parseable descriptor"
therefore fails: `maxGlobalVersion` starts at 0, and a negative global
version never reaches either branch of the comparison. -/
theorem c1_counterexample :
    (readCatalogProcessResult "NMAReadCatalogEditorOp" electionNeg).1 = none ∧
      parsedGlobals electionNeg = [-1] := by
  decide

/-- C1, amended: the published `hostsWithLatestCatalog` is non-empty iff
at least one host returned a parseable descriptor whose `versions.global`
converts to a non-negative integer; and when it is non-empty, every host
in it has `versions.global` equal to the maximum `versions.global` over
all successfully parsed descriptors. -/
theorem c1_election_nonempty_iff_max (opName : String)
    (results : List (String × CatalogResult)) :
    ((readCatalogProcessResult opName results).1 ≠ none ↔
      ∃ g ∈ parsedGlobals results, 0 ≤ g)
    ∧ (∀ pub, (readCatalogProcessResult opName results).1 = some pub →
        ∀ h ∈ pub.1,
          ∃ r d g, (h, r) ∈ results ∧ r.status = .passing ∧
            r.content = some d ∧
            jsonNumberInt64 d.Versions.Global = some g ∧
            g ∈ parsedGlobals results ∧
            ∀ g' ∈ parsedGlobals results, g' ≤ g) := by
  obtain ⟨ihMax, ihEmpty, ihMem, -, -, -⟩ := readCatalogFold_inv opName results
  rw [readCatalogProcessResult_published]
  constructor
  · by_cases h : (readCatalogFold opName results).hostsWithLatestCatalog = []
    · rw [if_pos h]
      simp only [ne_eq, not_true_eq_false, false_iff, not_exists]
      intro g hg
      exact absurd hg.2 (not_le.mpr (ihEmpty.mp h g hg.1))
    · rw [if_neg h]
      simp only [ne_eq, reduceCtorEq, not_false_eq_true, true_iff]
      by_contra hno
      push_neg at hno
      apply h
      apply ihEmpty.mpr
      intro g hg
      have := hno g hg
      omega
  · intro pub hpub h hmem
    by_cases hw : (readCatalogFold opName results).hostsWithLatestCatalog = []
    · rw [if_pos hw] at hpub
      cases hpub
    · rw [if_neg hw] at hpub
      have hpub1 : pub.1 = (readCatalogFold opName results).hostsWithLatestCatalog := by
        cases hpub; rfl
      rw [hpub1] at hmem
      obtain ⟨r, d, g, hrl, h1, h2, h3, h4⟩ := ihMem h hmem
      refine ⟨r, d, g, hrl, h1, h2, h3, ?_, ?_⟩
      · exact List.mem_filterMap.mpr
          ⟨(h, r), hrl, parsedGlobal_some.mpr ⟨h1, d, h2, h3⟩⟩
      · intro g' hg'
        rw [h4, ihMax]
        exact foldl_max_le_of_mem _ hg'

/-- C1, witness: scenario S1 has a parseable descriptor with non-negative
global (so the published list is non-empty), and host B of its published
list carries the maximum global version 12. -/
theorem c1_witness :
    ((readCatalogProcessResult "NMAReadCatalogEditorOp" electionS1).1 ≠ none) ∧
      ∃ r d g, ("B", r) ∈ electionS1 ∧ r.status = .passing ∧
        r.content = some d ∧
        jsonNumberInt64 d.Versions.Global = some g ∧
        g ∈ parsedGlobals electionS1 ∧
        ∀ g' ∈ parsedGlobals electionS1, g' ≤ g := by
  refine ⟨?_, ?_⟩
  · exact (c1_election_nonempty_iff_max "NMAReadCatalogEditorOp" electionS1).1.mpr
      ⟨12, by decide, by decide⟩
  · exact (c1_election_nonempty_iff_max "NMAReadCatalogEditorOp" electionS1).2
      (["B", "C"], enrichNmaVDB descrB) (by decide) "B" (by decide)

/-! ### Claim C3 -/

/-- C3, counterexample: one host whose descriptor parses with global
version 0.  The host wins the election (the published list is `["h1"]`),
but the published `nmaVDatabase` is the zero value, not the parsed
descriptor of the winning host: `latestNmaVDB` is only assigned in the
strictly-greater branch, which a global version equal to the initial
maximum 0 never takes. -/
theorem c3_counterexample :
    (readCatalogProcessResult "NMAReadCatalogEditorOp" electionZero).1 =
        some (["h1"], nmaVDatabaseZero) ∧
      nmaVDatabaseZero ≠ enrichNmaVDB descrZero ∧
      electionZero = [("h1", { status := .passing, content := some descrZero, err := [] })] := by
  decide

/-- C3, amended: whenever the election publishes a non-empty
`hostsWithLatestCatalog` and some parsed descriptor has a positive global
version, the published `nmaVDatabase` is the parsed descriptor of one of
the winning hosts, with the derived `HostNodeMap` keyed by node address
and `PrimaryNodeCount` equal to the number of `is_primary` nodes of that
descriptor.  (When the winners' global version is 0 the zero-value
descriptor is published instead, as the counterexample shows.) -/
theorem c3_published_descriptor (opName : String)
    (results : List (String × CatalogResult))
    (pub : List String × NmaVDatabase)
    (hpub : (readCatalogProcessResult opName results).1 = some pub)
    (hpos : ∃ g ∈ parsedGlobals results, 1 ≤ g) :
    ∃ h r d, h ∈ pub.1 ∧ (h, r) ∈ results ∧ r.status = .passing ∧
      r.content = some d ∧ pub.2 = enrichNmaVDB d ∧
      pub.2.HostNodeMap = buildHostNodeMap d.Nodes ∧
      (∀ kv ∈ pub.2.HostNodeMap, kv.1 = kv.2.Address) ∧
      pub.2.PrimaryNodeCount = countPrimaryNodes d.Nodes := by
  obtain ⟨ihMax, -, -, -, ihLatest, -⟩ := readCatalogFold_inv opName results
  rw [readCatalogProcessResult_published] at hpub
  by_cases hw : (readCatalogFold opName results).hostsWithLatestCatalog = []
  · rw [if_pos hw] at hpub
    cases hpub
  · rw [if_neg hw] at hpub
    have hpub1 : pub.1 = (readCatalogFold opName results).hostsWithLatestCatalog := by
      cases hpub; rfl
    have hpub2 : pub.2 = (readCatalogFold opName results).latestNmaVDB := by
      cases hpub; rfl
    obtain ⟨g, hg, hg1⟩ := hpos
    have hmaxpos : 1 ≤ (readCatalogFold opName results).maxGlobalVersion := by
      rw [ihMax]
      exact le_trans hg1 (foldl_max_le_of_mem _ hg)
    obtain ⟨h, r, d, hmem, hrl, h1, h2, h3, h4⟩ := ihLatest hmaxpos
    refine ⟨h, r, d, hpub1 ▸ hmem, hrl, h1, h2, hpub2 ▸ h4, ?_, ?_, ?_⟩
    · rw [hpub2, h4]; rfl
    · intro kv hkv
      rw [hpub2, h4] at hkv
      exact buildHostNodeMap_key_eq_address d.Nodes kv hkv
    · rw [hpub2, h4]; rfl

/-- C3, witness: in scenario S1 the maximum global version 12 is
positive, and the published descriptor is the enrichment of winning host
B's parsed descriptor. -/
theorem c3_witness :
    ∃ h r d, h ∈ (["B", "C"] : List String) ∧ (h, r) ∈ electionS1 ∧
      r.status = .passing ∧ r.content = some d ∧
      enrichNmaVDB descrB = enrichNmaVDB d ∧
      (enrichNmaVDB descrB).HostNodeMap = buildHostNodeMap d.Nodes ∧
      (∀ kv ∈ (enrichNmaVDB descrB).HostNodeMap, kv.1 = kv.2.Address) ∧
      (enrichNmaVDB descrB).PrimaryNodeCount = countPrimaryNodes d.Nodes := by
  exact c3_published_descriptor "NMAReadCatalogEditorOp" electionS1
    (["B", "C"], enrichNmaVDB descrB) (by decide) ⟨12, by decide, by decide⟩

/-! ### Claim C5 -/

/-- C5, counterexample: a collection with one failing host and one
passing host with a positive global version.  A winner is found (the
published list is non-empty), yet `processResult` does not return nil:
it returns the joined per-host errors.  The claimed "returns nil
whenever a winner was found" is therefore false. -/
theorem c5_counterexample :
    ((readCatalogProcessResult "NMAReadCatalogEditorOp" electionMix).1 ≠ none) ∧
      (readCatalogProcessResult "NMAReadCatalogEditorOp" electionMix).2 ≠ [] := by
  decide

/-- C5, amended: when a winner is found, the winners and descriptor are
still published to the context, but `processResult` returns the joined
per-host errors rather than nil: the return value is nil iff no host
contributed an error atom. -/
theorem c5_partial_failure_return (opName : String)
    (results : List (String × CatalogResult))
    (hne : (readCatalogProcessResult opName results).1 ≠ none) :
    (readCatalogProcessResult opName results).2 =
        readCatalogErrors opName results
    ∧ ((readCatalogProcessResult opName results).2 = [] ↔
        ∀ e ∈ results, catalogResultErrAtoms opName e = []) := by
  obtain ⟨-, -, -, -, -, ihErrs⟩ := readCatalogFold_inv opName results
  rw [readCatalogProcessResult_published] at hne
  rw [readCatalogProcessResult_retErr]
  by_cases hw : (readCatalogFold opName results).hostsWithLatestCatalog = []
  · rw [if_pos hw] at hne
    exact absurd rfl hne
  · rw [if_neg hw]
    exact ⟨ihErrs, ihErrs ▸ readCatalogErrors_eq_nil_iff opName results⟩

/-- C5, witness: applied to the mixed collection, where the returned
error is the failing host's error and is not nil. -/
theorem c5_witness :
    (readCatalogProcessResult "NMAReadCatalogEditorOp" electionMix).2 =
        readCatalogErrors "NMAReadCatalogEditorOp" electionMix
    ∧ ((readCatalogProcessResult "NMAReadCatalogEditorOp" electionMix).2 = [] ↔
        ∀ e ∈ electionMix,
          catalogResultErrAtoms "NMAReadCatalogEditorOp" e = []) := by
  exact c5_partial_failure_return "NMAReadCatalogEditorOp" electionMix (by decide)

/-! ### Claim C8 -/

/-- C8, confirmed: the election emits the winning hosts preserving
first-seen order: the published list is always a sublist (order
preserved) of the iteration order of the result collection, and in the
concrete scenario with globals B:12, C:12, A:10 — B encountered first —
the published list is exactly `["B", "C"]`, with no tie-breaking on any
deeper version field. -/
theorem c8_election_first_seen_order (opName : String)
    (results : List (String × CatalogResult)) :
    (∀ pub, (readCatalogProcessResult opName results).1 = some pub →
        pub.1.Sublist (results.map Prod.fst))
    ∧ Option.map Prod.fst
        (readCatalogProcessResult "NMAReadCatalogEditorOp" electionS1).1 =
        some ["B", "C"] := by
  obtain ⟨-, -, -, ihSub, -, -⟩ := readCatalogFold_inv opName results
  constructor
  · intro pub hpub
    rw [readCatalogProcessResult_published] at hpub
    by_cases hw : (readCatalogFold opName results).hostsWithLatestCatalog = []
    · rw [if_pos hw] at hpub
      cases hpub
    · rw [if_neg hw] at hpub
      have hpub1 : pub.1 = (readCatalogFold opName results).hostsWithLatestCatalog := by
        cases hpub; rfl
      rw [hpub1]
      exact ihSub
  · decide

/-- C8, witness: the published list of scenario S1 is a sublist of the
iteration order [B, C, A]. -/
theorem c8_witness :
    (["B", "C"] : List String).Sublist (electionS1.map Prod.fst) := by
  exact (c8_election_first_seen_order "NMAReadCatalogEditorOp" electionS1).1
    (["B", "C"], enrichNmaVDB descrB) (by decide)

/-! ### `httpsStartReplicationOp.processResult`

The per-host response body is a JSON dictionary; `content` carries the
outcome of `parseAndCheckMapResponse` (a string-to-string map, `none` on
a parse failure).  Reading a missing key of a Go map yields the zero
value "", exactly as `(mapLookup m "detail").getD ""`. -/

/-- One per-host result of the replication fan-out. -/
structure ReplicationResult where
  status : ResultStatus := .passing
  content : Option (List (String × String)) := none
  err : GoErr := []
deriving DecidableEq, Repr

/-- The loop of `httpsStartReplicationOp.processResult`, translated
clause by clause: an unauthorized result returns that host's error at
once; a non-passing result joins its error and continues; a passing
result is parsed and its `detail` field checked against "REPLICATE". -/
def startReplicationLoop (opName : String) (allErrs : GoErr) :
    List (String × ReplicationResult) → GoErr
  | [] => allErrs
  | (host, result) :: rest =>
    if result.status = .unauthorized then
      result.err
    else if ¬(result.status = .passing) then
      startReplicationLoop opName (allErrs ++ result.err) rest
    else
      match result.content with
      | none =>
        startReplicationLoop opName (allErrs ++ [.parseFailErr opName host]) rest
      | some startRepRsp =>
        if (mapLookup startRepRsp "detail").getD "" = "REPLICATE" then
          startReplicationLoop opName allErrs rest
        else
          startReplicationLoop opName
            (allErrs ++ [.detailMismatchErr opName "REPLICATE"
              ((mapLookup startRepRsp "detail").getD "")]) rest

/-- `httpsStartReplicationOp.processResult`: the returned error, with
`[]` playing Go's `nil`. -/
def startReplicationProcessResult
    (results : List (String × ReplicationResult)) : GoErr :=
  startReplicationLoop "HTTPSStartReplicationOp" [] results

/-! ### Claim C6 -/

theorem startReplicationLoop_unauthorized (opName : String)
    (pre : List (String × ReplicationResult)) (host : String)
    (u : ReplicationResult) (post : List (String × ReplicationResult))
    (hpre : ∀ e ∈ pre, e.2.status ≠ .unauthorized)
    (hu : u.status = .unauthorized) :
    ∀ allErrs, startReplicationLoop opName allErrs
      (pre ++ (host, u) :: post) = u.err := by
  induction pre with
  | nil =>
    intro allErrs
    simp only [List.nil_append, startReplicationLoop, hu, if_pos]
  | cons e pre ih =>
    intro allErrs
    have hne : e.2.status ≠ .unauthorized := hpre e (List.mem_cons_self _ _)
    have hpre' : ∀ e' ∈ pre, e'.2.status ≠ .unauthorized := fun e' he' =>
      hpre e' (List.mem_cons_of_mem _ he')
    rcases e with ⟨h0, r0⟩
    show startReplicationLoop opName allErrs
      ((h0, r0) :: (pre ++ (host, u) :: post)) = u.err
    unfold startReplicationLoop
    rw [if_neg (by exact hne)]
    by_cases hp : r0.status = .passing
    · rw [if_neg (by simp [hp])]
      cases hc : r0.content with
      | none => exact ih hpre' _
      | some m =>
        dsimp only
        by_cases hd : (mapLookup m "detail").getD "" = "REPLICATE"
        · rw [if_pos hd]
          exact ih hpre' _
        · rw [if_neg hd]
          exact ih hpre' _
    · rw [if_pos (by simp [hp])]
      exact ih hpre' _

/-- C6, confirmed: for every result collection containing an
unauthorized result, `processResult` returns that (first-encountered)
unauthorized host's error, and the results after it are never inspected:
the return value is the same for every possible tail. -/
theorem c6_unauthorized_short_circuit
    (pre : List (String × ReplicationResult)) (host : String)
    (u : ReplicationResult) (post : List (String × ReplicationResult))
    (hpre : ∀ e ∈ pre, e.2.status ≠ .unauthorized)
    (hu : u.status = .unauthorized) :
    startReplicationProcessResult (pre ++ (host, u) :: post) = u.err ∧
      startReplicationProcessResult (pre ++ [(host, u)]) = u.err := by
  constructor
  · exact startReplicationLoop_unauthorized _ pre host u post hpre hu []
  · exact startReplicationLoop_unauthorized _ pre host u [] hpre hu []

/-- C6, witness: one passing host, then an unauthorized host, then one
more host whose result is never consulted: the outcome is the
unauthorized host's error. -/
theorem c6_witness :
    startReplicationProcessResult
      [("s1", { content := some [("detail", "REPLICATE")] }),
       ("s2", { status := .unauthorized,
                err := [.hostErr "s2" "401 unauthorized"] }),
       ("s3", { status := .failure, err := [.hostErr "s3" "boom"] })] =
      [.hostErr "s2" "401 unauthorized"] := by
  exact (c6_unauthorized_short_circuit
    [("s1", { content := some [("detail", "REPLICATE")] })] "s2"
    { status := .unauthorized, err := [.hostErr "s2" "401 unauthorized"] }
    [("s3", { status := .failure, err := [.hostErr "s3" "boom"] })]
    (by decide) (by decide)).1

/-! ### Claim C4 -/

/-- C4, counterexample: `httpsStartReplicationOp.processResult` on a
fully empty result collection returns `[]`, i.e. Go's nil — success, not
an error.  The loop body never runs and the zero-value `allErrs` is
returned, so the claim "every operation returns an error on an empty
result collection" fails for this operation. -/
theorem c4_counterexample :
    startReplicationProcessResult [] = [] := by
  decide

/-- C4, amended: `nmaReadCatalogEditorOp.processResult` does return an
error on a fully empty result collection (nothing is published and the
returned error is the "cannot find any host with the latest catalog"
error), but `httpsStartReplicationOp.processResult` returns nil on an
empty collection, so the property does not hold for every operation. -/
theorem c4_empty_result_collection (opName : String) :
    (readCatalogProcessResult opName []).1 = none ∧
      (readCatalogProcessResult opName []).2 = [.noLatestCatalogErr opName] ∧
      startReplicationProcessResult [] = [] := by
  exact ⟨rfl, rfl, rfl⟩

/-- C4, witness: the amended statement at the concrete operation name. -/
theorem c4_witness :
    (readCatalogProcessResult "NMAReadCatalogEditorOp" []).1 = none ∧
      (readCatalogProcessResult "NMAReadCatalogEditorOp" []).2 =
        [.noLatestCatalogErr "NMAReadCatalogEditorOp"] ∧
      startReplicationProcessResult [] = [] := by
  exact c4_empty_result_collection "NMAReadCatalogEditorOp"

/-! ### The coordination database (`VCoordinationDatabase`)

The `VCoordinationDatabase` and `VCoordinationNode` struct declarations
are outside the sources at hand (only their uses are); modelled from the
spec's data model section.  `HostNodeMap` is `map[string]VCoordinationNode`
with value semantics, so reading a missing host yields the zero value. -/

/-- Modelled from the spec: `VCoordinationNode`, whose declaration is
not among the sources at hand — {name, address, catalog-path, data-path,
depot-path, storage-locations, user-storage-locations, subcluster-name,
is-primary, is-ephemeral, state, sandbox-name}. -/
structure VCoordinationNode where
  Name : String := ""
  Address : String := ""
  CatalogPath : String := ""
  DataPath : String := ""
  DepotPath : String := ""
  StorageLocations : List String := []
  UserStorageLocations : List String := []
  Subcluster : String := ""
  IsPrimary : Bool := false
  IsEphemeral : Bool := false
  State : String := ""
  Sandbox : String := ""
deriving DecidableEq, Repr

/-- Modelled from the spec: `VCoordinationDatabase`, whose declaration is
not among the sources at hand — the host list and the host-to-node
mapping are the fields read by the operations verified here. -/
structure VCoordinationDatabase where
  Name : String := ""
  HostNodeMap : List (String × VCoordinationNode) := []
  HostList : List String := []
deriving DecidableEq, Repr

/-! ### `NMALoadRemoteCatalogOp.processResult` (quorum check) -/

/-- The decoded `/catalog/revive` response body (`loadCatalogResponse`),
where status 0 means success. -/
structure LoadCatalogResponse where
  StatusCode : Int := 0
deriving DecidableEq, Repr

/-- One per-host result of the load-remote-catalog fan-out; `content` is
the outcome of `parseAndCheckResponse` on the body. -/
structure ReviveHostResult where
  status : ResultStatus := .passing
  content : Option LoadCatalogResponse := none
  err : GoErr := []
deriving DecidableEq, Repr

/-- The fields of `NMALoadRemoteCatalogOp` read by its result
reduction. -/
structure NMALoadRemoteCatalogOp where
  name : String := "NMALoadRemoteCatalogOp"
  primaryNodeCount : Nat := 0
  vdbHostNodeMap : List (String × VCoordinationNode) := []
deriving DecidableEq, Repr

/-- `makeNMALoadRemoteCatalogOp`, restricted to the fields the result
reduction reads: the primary-node count is derived by counting the
primary nodes of `vdb.HostNodeMap`. -/
def makeNMALoadRemoteCatalogOp
    (vdbHostNodeMap : List (String × VCoordinationNode)) :
    NMALoadRemoteCatalogOp :=
  { name := "NMALoadRemoteCatalogOp"
    primaryNodeCount := vdbHostNodeMap.countP (fun kv => kv.2.IsPrimary)
    vdbHostNodeMap := vdbHostNodeMap }

/-- Modelled from the spec: `opBase.hasQuorum` is defined outside the
sources at hand; per the quorum-check section, quorum holds iff the
success count is strictly more than half of the primary-node count. -/
def hasQuorum (successCount primaryNodeCount : Nat) : Bool :=
  primaryNodeCount < 2 * successCount

/-- Modelled from the spec: `appendHTTPSFailureError` is defined outside
the sources at hand; per the failure-semantics section it joins one more
generic HTTPS-failure note onto the aggregated error. -/
def appendHTTPSFailureError (allErrs : GoErr) : GoErr :=
  allErrs ++ [.httpsOpFailedErr]

/-- One iteration of the `NMALoadRemoteCatalogOp.processResult` loop:
the state is the joined errors and `successPrimaryNodeCount`.  A passing
result whose body parses to status 0 on a primary host (per
`vdb.HostNodeMap[host].IsPrimary`, with the zero value for a missing
host) increments the count; every other outcome joins an error. -/
def loadRemoteCatalogStep (op : NMALoadRemoteCatalogOp) (s : GoErr × Nat)
    (e : String × ReviveHostResult) : GoErr × Nat :=
  let host := e.1
  let result := e.2
  match result.status with
  | .passing =>
    match result.content with
    | none => (s.1 ++ [.parseFailErr op.name host], s.2)
    | some response =>
      if ¬(response.StatusCode = 0) then
        (s.1 ++ [.loadCatalogFailErr op.name host], s.2)
      else if ((mapLookup op.vdbHostNodeMap host).getD {}).IsPrimary then
        (s.1, s.2 + 1)
      else s
  | _ => (s.1 ++ ([.httpsCallFailErr op.name host] ++ result.err), s.2)

/-- `NMALoadRemoteCatalogOp.processResult`: reduce the results, then run
the quorum check; below quorum the aggregated error gains the quorum
error (whose format string interpolates only the success count) and the
generic HTTPS-failure note; at or above quorum the op returns nil. -/
def loadRemoteCatalogProcessResult (op : NMALoadRemoteCatalogOp)
    (results : List (String × ReviveHostResult)) : GoErr :=
  let s := results.foldl (loadRemoteCatalogStep op) ([], 0)
  if ¬(hasQuorum s.2 op.primaryNodeCount = true) then
    appendHTTPSFailureError (s.1 ++ [.quorumErr op.name s.2])
  else []

/-- Whether one result counts toward the primary success count. -/
def reviveSuccess (op : NMALoadRemoteCatalogOp)
    (e : String × ReviveHostResult) : Bool :=
  match e.2.status, e.2.content with
  | .passing, some response =>
    response.StatusCode = 0 ∧
      ((mapLookup op.vdbHostNodeMap e.1).getD {}).IsPrimary
  | _, _ => false

/-- The number of primary nodes that returned a passing, parseable,
status-0 response. -/
def reviveSuccessPrimaryCount (op : NMALoadRemoteCatalogOp)
    (results : List (String × ReviveHostResult)) : Nat :=
  results.countP (reviveSuccess op)

theorem loadRemoteCatalogStep_snd (op : NMALoadRemoteCatalogOp)
    (s : GoErr × Nat) (e : String × ReviveHostResult) :
    (loadRemoteCatalogStep op s e).2 =
      s.2 + (if reviveSuccess op e then 1 else 0) := by
  rcases e with ⟨host, result⟩
  cases hst : result.status with
  | passing =>
    cases hc : result.content with
    | none => simp [loadRemoteCatalogStep, reviveSuccess, hst, hc]
    | some response =>
      by_cases hsc : response.StatusCode = 0
      · by_cases hp : ((mapLookup op.vdbHostNodeMap host).getD {}).IsPrimary
        · simp [loadRemoteCatalogStep, reviveSuccess, hst, hc, hsc, hp]
        · simp [loadRemoteCatalogStep, reviveSuccess, hst, hc, hsc, hp]
      · simp [loadRemoteCatalogStep, reviveSuccess, hst, hc, hsc]
  | failure => simp [loadRemoteCatalogStep, reviveSuccess, hst]
  | unauthorized => simp [loadRemoteCatalogStep, reviveSuccess, hst]
  | eofClass => simp [loadRemoteCatalogStep, reviveSuccess, hst]
  | exceptionClass => simp [loadRemoteCatalogStep, reviveSuccess, hst]

/-- The loop's success count equals the canonical count. -/
theorem loadRemoteCatalogFold_snd (op : NMALoadRemoteCatalogOp)
    (results : List (String × ReviveHostResult)) :
    (results.foldl (loadRemoteCatalogStep op) ([], 0)).2 =
      reviveSuccessPrimaryCount op results := by
  induction results using List.reverseRecOn with
  | nil => rfl
  | append_singleton l x ih =>
    rw [List.foldl_concat, loadRemoteCatalogStep_snd, ih]
    unfold reviveSuccessPrimaryCount
    rw [List.countP_append]
    by_cases h : reviveSuccess op x <;> simp [h, List.countP_cons]

/-! ### Claim C2 -/

/-- A coordination map with five primary nodes, giving the op a
primary-node count of 5. -/
def fivePrimaryMap : List (String × VCoordinationNode) :=
  [("10.0.0.1", { Name := "n1", Address := "10.0.0.1", IsPrimary := true }),
   ("10.0.0.2", { Name := "n2", Address := "10.0.0.2", IsPrimary := true }),
   ("10.0.0.3", { Name := "n3", Address := "10.0.0.3", IsPrimary := true }),
   ("10.0.0.4", { Name := "n4", Address := "10.0.0.4", IsPrimary := true }),
   ("10.0.0.5", { Name := "n5", Address := "10.0.0.5", IsPrimary := true })]

/-- Two status-0 responses from primary hosts and three failures:
2 of 5 successes, below quorum. -/
def reviveBelowQuorum : List (String × ReviveHostResult) :=
  [("10.0.0.1", { content := some {} }),
   ("10.0.0.2", { content := some {} }),
   ("10.0.0.3", { status := .failure, err := [.hostErr "10.0.0.3" "timeout"] }),
   ("10.0.0.4", { status := .failure, err := [.hostErr "10.0.0.4" "timeout"] }),
   ("10.0.0.5", { status := .failure, err := [.hostErr "10.0.0.5" "timeout"] })]

/-- C2, counterexample: with a primary-node count of 5 and 2 successes
the op is below quorum and returns a fatal aggregated error — but no
atom of that error carries the total primary-node count 5 as a numeric
argument: the quorum error's format string interpolates only the success
count ("... Success count: %d").  The claimed "includes the success
count and the total primary-node count" is therefore false; the success
count 2 is included. -/
theorem c2_counterexample :
    loadRemoteCatalogProcessResult (makeNMALoadRemoteCatalogOp fivePrimaryMap)
        reviveBelowQuorum ≠ [] ∧
      (loadRemoteCatalogProcessResult (makeNMALoadRemoteCatalogOp fivePrimaryMap)
        reviveBelowQuorum).all (fun a => !(a.mentionsNat 5)) = true ∧
      (loadRemoteCatalogProcessResult (makeNMALoadRemoteCatalogOp fivePrimaryMap)
        reviveBelowQuorum).any (fun a => a.mentionsNat 2) = true := by
  decide

/-- C2, amended: `processResult` returns success iff the number of
primary nodes with a passing, parseable, status-0 response is strictly
more than half of the operation's primary-node count; below quorum it
returns a fatal aggregated error that includes the success count (the
total primary-node count is not interpolated into any message); above
quorum any per-host failures are not fatal and the operation returns
success. -/
theorem c2_quorum_check (op : NMALoadRemoteCatalogOp)
    (results : List (String × ReviveHostResult)) :
    (loadRemoteCatalogProcessResult op results = [] ↔
      hasQuorum (reviveSuccessPrimaryCount op results) op.primaryNodeCount = true)
    ∧ (hasQuorum (reviveSuccessPrimaryCount op results) op.primaryNodeCount = false →
        ErrAtom.quorumErr op.name (reviveSuccessPrimaryCount op results) ∈
          loadRemoteCatalogProcessResult op results) := by
  have hsnd := loadRemoteCatalogFold_snd op results
  unfold loadRemoteCatalogProcessResult
  constructor
  · by_cases hq : hasQuorum (results.foldl (loadRemoteCatalogStep op) ([], 0)).2
        op.primaryNodeCount = true
    · rw [if_neg (by simp [hq])]
      rw [hsnd] at hq
      simp [hq]
    · rw [if_pos (by simp [hq])]
      rw [hsnd] at hq
      simp only [hq, iff_false]
      unfold appendHTTPSFailureError
      simp
  · intro hq
    rw [← hsnd] at hq
    rw [if_pos (by simp [hq])]
    unfold appendHTTPSFailureError
    rw [hsnd]
    simp

/-- C2, witness: at the concrete below-quorum input the aggregated error
contains the quorum error carrying the success count 2. -/
theorem c2_witness :
    ErrAtom.quorumErr "NMALoadRemoteCatalogOp" 2 ∈
      loadRemoteCatalogProcessResult (makeNMALoadRemoteCatalogOp fivePrimaryMap)
        reviveBelowQuorum := by
  have h := (c2_quorum_check (makeNMALoadRemoteCatalogOp fivePrimaryMap)
    reviveBelowQuorum).2 (by decide)
  have hc : reviveSuccessPrimaryCount (makeNMALoadRemoteCatalogOp fivePrimaryMap)
      reviveBelowQuorum = 2 := by decide
  rw [hc] at h
  exact h

/-! ### A toolkit for `mapInsert`-built association lists -/

theorem mapLookup_append_of_none {β : Type} (m m' : List (String × β))
    (k : String) (h : mapLookup m k = none) :
    mapLookup (m ++ m') k = mapLookup m' k := by
  induction m with
  | nil => rfl
  | cons p rest ih =>
    simp only [mapLookup] at h
    by_cases hp : p.1 = k
    · rw [if_pos hp] at h
      cases h
    · rw [if_neg hp] at h
      simp only [List.cons_append, mapLookup, if_neg hp]
      exact ih h

theorem mapLookup_contains {β : Type} {m : List (String × β)} {k : String}
    {v : β} (h : mapLookup m k = some v) :
    (m.map Prod.fst).contains k = true := by
  induction m with
  | nil => cases h
  | cons p rest ih =>
    simp only [mapLookup] at h
    by_cases hp : p.1 = k
    · simp [hp]
    · rw [if_neg hp] at h
      have := ih h
      simp only [List.map_cons, List.contains_cons, this, Bool.or_true]

theorem mapLookup_none_of_not_contains {β : Type} {m : List (String × β)}
    {k : String} (h : ¬((m.map Prod.fst).contains k = true)) :
    mapLookup m k = none := by
  induction m with
  | nil => rfl
  | cons p rest ih =>
    simp only [mapLookup]
    by_cases hp : p.1 = k
    · exact absurd (by simp [hp]) h
    · rw [if_neg hp]
      apply ih
      intro hc
      apply h
      simp only [List.map_cons, List.contains_cons, hc, Bool.or_true]

theorem lookup_replace_of_contains {β : Type} (k : String) (v : β) :
    ∀ (m : List (String × β)), (m.map Prod.fst).contains k = true →
      mapLookup (m.map fun p => if p.1 = k then (k, v) else p) k = some v := by
  intro m
  induction m with
  | nil => intro hc; simp at hc
  | cons p rest ih =>
    intro hc
    by_cases hp : p.1 = k
    · simp [mapLookup, hp]
    · simp only [List.map_cons, if_neg hp, mapLookup, if_neg hp]
      apply ih
      simp only [List.map_cons, List.contains_cons] at hc
      rcases Bool.or_eq_true_iff.mp hc with h1 | h2
      · exact absurd (beq_iff_eq.mp h1).symm hp
      · exact h2

theorem lookup_replace_ne {β : Type} (k k' : String) (v : β)
    (hne : ¬(k' = k)) :
    ∀ (m : List (String × β)),
      mapLookup (m.map fun p => if p.1 = k then (k, v) else p) k' =
        mapLookup m k' := by
  intro m
  induction m with
  | nil => rfl
  | cons p rest ih =>
    by_cases hp : p.1 = k
    · simp only [List.map_cons, if_pos hp, mapLookup]
      rw [if_neg (fun h => hne h.symm), if_neg (by rw [hp]; exact fun h => hne h.symm)]
      exact ih
    · simp only [List.map_cons, if_neg hp, mapLookup]
      by_cases hp' : p.1 = k'
      · rw [if_pos hp', if_pos hp']
      · rw [if_neg hp', if_neg hp']
        exact ih

theorem lookup_append_single_ne {β : Type} (k k' : String) (v : β)
    (hne : ¬(k' = k)) :
    ∀ (m : List (String × β)),
      mapLookup (m ++ [(k, v)]) k' = mapLookup m k' := by
  intro m
  induction m with
  | nil =>
    simp only [List.nil_append, mapLookup]
    rw [if_neg (fun h => hne h.symm)]
  | cons p rest ih =>
    simp only [List.cons_append, mapLookup]
    by_cases hp' : p.1 = k'
    · rw [if_pos hp', if_pos hp']
    · rw [if_neg hp', if_neg hp']
      exact ih

/-- Looking up the inserted key yields the inserted value. -/
theorem mapLookup_mapInsert_self {β : Type} (m : List (String × β))
    (k : String) (v : β) :
    mapLookup (mapInsert m k v) k = some v := by
  unfold mapInsert
  split
  · rename_i hc
    exact lookup_replace_of_contains k v m hc
  · rename_i hc
    rw [mapLookup_append_of_none _ _ _ (mapLookup_none_of_not_contains hc)]
    simp [mapLookup]

/-- Looking up a different key is unchanged by an insert. -/
theorem mapLookup_mapInsert_ne {β : Type} (m : List (String × β))
    (k k' : String) (v : β) (hne : ¬(k' = k)) :
    mapLookup (mapInsert m k v) k' = mapLookup m k' := by
  unfold mapInsert
  split
  · exact lookup_replace_ne k k' v hne m
  · exact lookup_append_single_ne k k' v hne m

/-- A map of a function that fixes every element is the identity. -/
theorem list_map_eq_self {α : Type} {g : α → α} {l : List α}
    (h : ∀ x ∈ l, g x = x) : l.map g = l := by
  induction l with
  | nil => rfl
  | cons a l ih =>
    simp only [List.map_cons]
    rw [h a (List.mem_cons_self _ _), ih fun x hx => h x (List.mem_cons_of_mem _ hx)]

/-- Re-inserting a key whose every occurrence already carries the value
is a no-op. -/
theorem mapInsert_eq_self {β : Type} {m : List (String × β)} {k : String}
    {v : β} (hall : ∀ p ∈ m, p.1 = k → p.2 = v)
    (hsome : mapLookup m k = some v) : mapInsert m k v = m := by
  unfold mapInsert
  rw [if_pos (mapLookup_contains hsome)]
  apply list_map_eq_self
  intro p hp
  by_cases hk : p.1 = k
  · rw [if_pos hk]
    have := hall p hp hk
    rw [← hk, ← this]
  · rw [if_neg hk]

/-- Invariant of maps whose inserted values are determined by the key:
every entry's value is the key's image. -/
def KeyFunMap {β : Type} (f : String → β) (m : List (String × β)) : Prop :=
  ∀ p ∈ m, p.2 = f p.1

theorem keyFunMap_nil {β : Type} (f : String → β) : KeyFunMap f [] := by
  intro p hp
  cases hp

theorem keyFunMap_mapInsert {β : Type} {f : String → β}
    {m : List (String × β)} (hm : KeyFunMap f m) (k : String) :
    KeyFunMap f (mapInsert m k (f k)) := by
  have := mapInsert_forall (P := fun p => p.2 = f p.1) hm (rfl : f k = f k)
  exact this

theorem keyFunMap_foldl {β : Type} {f : String → β} :
    ∀ (l : List String) {m : List (String × β)}, KeyFunMap f m →
      KeyFunMap f (l.foldl (fun m k => mapInsert m k (f k)) m) := by
  intro l
  induction l with
  | nil => intro m hm; exact hm
  | cons k l ih =>
    intro m hm
    exact ih (keyFunMap_mapInsert hm k)

/-- Lookup in a fold of key-determined inserts. -/
theorem foldl_keyfun_lookup {β : Type} (f : String → β) :
    ∀ (l : List String) (m : List (String × β)) (h : String),
      mapLookup (l.foldl (fun m k => mapInsert m k (f k)) m) h =
        if h ∈ l then some (f h) else mapLookup m h := by
  intro l
  induction l with
  | nil =>
    intro m h
    simp
  | cons k l ih =>
    intro m h
    simp only [List.foldl_cons]
    rw [ih]
    by_cases hl : h ∈ l
    · rw [if_pos hl, if_pos (List.mem_cons_of_mem _ hl)]
    · rw [if_neg hl]
      by_cases hk : h = k
      · rw [hk, if_pos (List.mem_cons_self _ _)]
        exact mapLookup_mapInsert_self _ _ _
      · rw [if_neg (by simp [hk, hl])]
        exact mapLookup_mapInsert_ne _ _ _ _ hk

/-- A second pass of key-determined inserts over keys that are all
already present with their image is a no-op. -/
theorem foldl_keyfun_absorb {β : Type} (f : String → β) :
    ∀ (extra : List String) (m : List (String × β)), KeyFunMap f m →
      (∀ h ∈ extra, mapLookup m h = some (f h)) →
      extra.foldl (fun m k => mapInsert m k (f k)) m = m := by
  intro extra
  induction extra with
  | nil => intro m _ _; rfl
  | cons k extra ih =>
    intro m hm hall
    simp only [List.foldl_cons]
    have hk : mapLookup m k = some (f k) := hall k (List.mem_cons_self _ _)
    have hstep : mapInsert m k (f k) = m :=
      mapInsert_eq_self (fun p hp hpk => by rw [hm p hp, hpk]) hk
    rw [hstep]
    exact ih m hm fun h hh => hall h (List.mem_cons_of_mem _ hh)

/-! ### The wire request model and `AdapterPool.sendRequest`

The `hostHTTPRequest` struct declaration is outside the sources at hand;
modelled from the spec's data model: method, endpoint kind, path,
query parameters, body, credentials, timeout.  The body of the one
modelled operation that sets one is the marshalled
`replicateRequestData`; Go's `json.Marshal` is deterministic, so
byte-equality of marshalled bodies is equality of these records. -/

/-- HTTP methods (`GetMethod`, `PostMethod`, ...). -/
inductive HTTPMethod where
  | GET
  | POST
  | PUT
  | DELETE
deriving DecidableEq, Repr

/-- Which control plane an endpoint belongs to (`buildNMAEndpoint` vs
`buildHTTPSEndpoint`). -/
inductive EndpointKind where
  | nodeMgmt
  | dbHTTPS
deriving DecidableEq, Repr

/-- The `replicateRequestData` wire body of `httpsStartReplicationOp`. -/
structure ReplicateRequestData where
  TargetHost : String := ""
  TargetDB : String := ""
  TargetUserName : String := ""
  TargetPassword : Option String := none
  TLSConfig : String := ""
deriving DecidableEq, Repr

/-- Modelled from the spec: one outbound per-host request
(`hostHTTPRequest`), whose struct declaration is not among the sources
at hand. -/
structure HostHTTPRequest where
  Method : HTTPMethod := .GET
  Endpoint : EndpointKind := .nodeMgmt
  Path : String := ""
  QueryParams : List (String × String) := []
  Username : String := ""
  Password : Option String := none
  RequestData : Option ReplicateRequestData := none
  Timeout : Nat := 0
deriving DecidableEq, Repr

/-- Modelled from the spec: one per-host outcome (`hostHTTPResult`),
carrying the host it belongs to. -/
structure HostHTTPResult where
  host : String := ""
  status : ResultStatus := .passing
  err : GoErr := []
deriving DecidableEq, Repr

/-- `AdapterPool.sendRequest`.  The pool is the list of hosts that have
an adapter; the request collection is checked for pool membership first
(fail fast on the first host without an adapter).  The per-host workers
and the shared channel are modelled by `delivered`, the sequence in
which results arrive on the channel; the receive loop stores exactly as
many results as there are hosts, keyed by each result's own host
field. -/
def sendRequest (pool : List String)
    (requestCollection : List (String × HostHTTPRequest))
    (delivered : List HostHTTPResult) :
    Except ErrAtom (List (String × HostHTTPResult)) :=
  match requestCollection.find? (fun e => !(pool.contains e.1)) with
  | some e => .error (.hostNotInPoolErr e.1)
  | none =>
    .ok ((delivered.take requestCollection.length).foldl
      (fun m r => mapInsert m r.host r) [])

theorem mapInsert_length_le {β : Type} (m : List (String × β))
    (k : String) (v : β) :
    (mapInsert m k v).length ≤ m.length + 1 := by
  unfold mapInsert
  split
  · simp
  · simp

theorem foldl_mapInsert_length_le :
    ∀ (l : List HostHTTPResult) (m : List (String × HostHTTPResult)),
      (l.foldl (fun m r => mapInsert m r.host r) m).length ≤
        m.length + l.length := by
  intro l
  induction l with
  | nil => intro m; simp
  | cons r l ih =>
    intro m
    simp only [List.foldl_cons]
    calc (l.foldl (fun m r => mapInsert m r.host r) (mapInsert m r.host r)).length
        ≤ (mapInsert m r.host r).length + l.length := ih _
      _ ≤ m.length + 1 + l.length := by
          have := mapInsert_length_le m r.host r
          omega
      _ = m.length + (r :: l).length := by simp; omega

theorem foldl_mapInsert_host_forall {P : String × HostHTTPResult → Prop} :
    ∀ (l : List HostHTTPResult) (m : List (String × HostHTTPResult)),
      (∀ kv ∈ m, P kv) → (∀ r ∈ l, P (r.host, r)) →
      ∀ kv ∈ l.foldl (fun m r => mapInsert m r.host r) m, P kv := by
  intro l
  induction l with
  | nil => intro m hm _; exact hm
  | cons r l ih =>
    intro m hm hl
    simp only [List.foldl_cons]
    exact ih _ (mapInsert_forall hm (hl r (List.mem_cons_self _ _)))
      fun r' hr' => hl r' (List.mem_cons_of_mem _ hr')

/-! ### Claim C7 -/

/-- C7, confirmed: whenever `sendRequest` returns without error, the
hosts keyed in the populated result collection form a subset of the
hosts keyed in the request collection, and the result collection has at
most as many entries as there are requested hosts.  The adapter
behaviour is a parameter: the hypothesis that an adapter's result names
its own host is the per-host transport contract (modelled from the
spec), and `delivered` ranges over every possible channel arrival
order. -/
theorem c7_result_keys_subset_request_keys
    (pool : List String)
    (requestCollection : List (String × HostHTTPRequest))
    (adapter : String → HostHTTPRequest → HostHTTPResult)
    (delivered : List HostHTTPResult)
    (resultCollection : List (String × HostHTTPResult))
    (hadapter : ∀ h req, (adapter h req).host = h)
    (hdelivered : delivered.Perm
      (requestCollection.map (fun e => adapter e.1 e.2)))
    (hok : sendRequest pool requestCollection delivered =
      .ok resultCollection) :
    (∀ kv ∈ resultCollection, kv.1 ∈ requestCollection.map Prod.fst) ∧
      resultCollection.length ≤ requestCollection.length := by
  unfold sendRequest at hok
  cases hfind : requestCollection.find? (fun e => !(pool.contains e.1)) with
  | some e => rw [hfind] at hok; cases hok
  | none =>
    rw [hfind] at hok
    have hrc : resultCollection =
        (delivered.take requestCollection.length).foldl
          (fun m r => mapInsert m r.host r) [] := by
      cases hok; rfl
    constructor
    · intro kv hkv
      rw [hrc] at hkv
      refine foldl_mapInsert_host_forall
        (P := fun kv => kv.1 ∈ requestCollection.map Prod.fst) _ _
        (by intro kv h; cases h) ?_ kv hkv
      intro r hr
      have hrdel : r ∈ delivered := List.mem_of_mem_take hr
      have hrmap : r ∈ requestCollection.map (fun e => adapter e.1 e.2) :=
        hdelivered.mem_iff.mp hrdel
      rcases List.mem_map.mp hrmap with ⟨e, he, rfl⟩
      rw [hadapter e.1 e.2]
      exact List.mem_map_of_mem _ he
    · rw [hrc]
      calc ((delivered.take requestCollection.length).foldl
            (fun m r => mapInsert m r.host r) []).length
          ≤ 0 + (delivered.take requestCollection.length).length :=
            foldl_mapInsert_length_le _ _
        _ ≤ requestCollection.length := by
            rw [List.length_take]
            omega

/-- C7, witness: two requested hosts whose results arrive in the
opposite order; the populated collection keys are among the requested
hosts and number at most two. -/
theorem c7_witness :
    (∀ kv ∈ ([("hb", ({ host := "hb" } : HostHTTPResult)),
              ("ha", ({ host := "ha" } : HostHTTPResult))] :
        List (String × HostHTTPResult)),
      kv.1 ∈ ([("ha", ({} : HostHTTPRequest)),
               ("hb", ({} : HostHTTPRequest))] :
          List (String × HostHTTPRequest)).map Prod.fst) ∧
      ([("hb", ({ host := "hb" } : HostHTTPResult)),
        ("ha", ({ host := "ha" } : HostHTTPResult))] :
          List (String × HostHTTPResult)).length ≤
        ([("ha", ({} : HostHTTPRequest)),
          ("hb", ({} : HostHTTPRequest))] :
            List (String × HostHTTPRequest)).length := by
  exact c7_result_keys_subset_request_keys
    ["ha", "hb"]
    [("ha", {}), ("hb", {})]
    (fun h _ => { host := h })
    [{ host := "hb" }, { host := "ha" }]
    [("hb", { host := "hb" }), ("ha", { host := "ha" })]
    (fun h req => rfl)
    (by decide)
    (by rfl)

/-! ### `nmaReadCatalogEditorOp.prepare` -/

/-- The fields of `nmaReadCatalogEditorOp` touched by `prepare`. -/
structure NMAReadCatalogEditorOp where
  name : String := "NMAReadCatalogEditorOp"
  initiator : List String := []
  hosts : List String := []
  catalogPathMap : List (String × String) := []
deriving DecidableEq, Repr

/-- `makeNMAReadCatalogEditorOpWithInitiator`, restricted to the fields
`prepare` touches. -/
def makeNMAReadCatalogEditorOpWithInitiator (initiator : List String) :
    NMAReadCatalogEditorOp :=
  { name := "NMAReadCatalogEditorOp", initiator := initiator }

/-- The per-host request that `setupClusterHTTPRequest` builds: a GET on
the node-management `catalog/database` endpoint with the host's catalog
path as a query parameter. -/
def readCatalogEditorRequest (catalogPath : String) : HostHTTPRequest :=
  { Method := .GET, Endpoint := .nodeMgmt, Path := "catalog/database",
    QueryParams := [("catalog_path", catalogPath)] }

/-- `nmaReadCatalogEditorOp.setupClusterHTTPRequest`: build one request
per host, failing on a host without a catalog path. -/
def readCatalogEditorSetupRequests (op : NMAReadCatalogEditorOp) :
    List String → List (String × HostHTTPRequest) →
      Except ErrAtom (List (String × HostHTTPRequest))
  | [], acc => .ok acc
  | host :: rest, acc =>
    match mapLookup op.catalogPathMap host with
    | none => .error (.catalogPathNotFoundErr op.name host)
    | some catalogPath =>
      readCatalogEditorSetupRequests op rest
        (mapInsert acc host (readCatalogEditorRequest catalogPath))

/-- The initiator branch of `prepare`: append each initiator host to
`op.hosts` and record its catalog path, failing on a host missing from
`vdb.HostNodeMap`. -/
def readCatalogEditorInitiatorLoop (vdb : VCoordinationDatabase) :
    List String → NMAReadCatalogEditorOp →
      Except ErrAtom NMAReadCatalogEditorOp
  | [], op => .ok op
  | host :: rest, op =>
    match mapLookup vdb.HostNodeMap host with
    | none =>
      .error (.initiatorNotFoundErr op.name host)
    | some vnode =>
      readCatalogEditorInitiatorLoop vdb rest
        { op with
          hosts := op.hosts ++ [host]
          catalogPathMap := mapInsert op.catalogPathMap host vnode.CatalogPath }

/-- The state after the no-initiator branch of `prepare`: `op.hosts` is
assigned the keys of `vdb.HostNodeMap` and the freshly made
`catalogPathMap` is filled with each host's catalog path. -/
def readCatalogEditorAllHostsState (op : NMAReadCatalogEditorOp)
    (vdb : VCoordinationDatabase) : NMAReadCatalogEditorOp :=
  { op with
    hosts := vdb.HostNodeMap.map Prod.fst
    catalogPathMap := vdb.HostNodeMap.foldl
      (fun m kv => mapInsert m kv.1 kv.2.CatalogPath) [] }

/-- `nmaReadCatalogEditorOp.prepare`: rebuild `catalogPathMap` from a
fresh map; with no initiator take all hosts of `vdb.HostNodeMap`
(assignment), otherwise append the initiator hosts to `op.hosts`; then
build the request collection.  Returns the updated operation state and
the built request collection. -/
def readCatalogEditorPrepare (op : NMAReadCatalogEditorOp)
    (vdb : VCoordinationDatabase) :
    Except ErrAtom (NMAReadCatalogEditorOp × List (String × HostHTTPRequest)) :=
  if op.initiator.length = 0 then
    let opA := readCatalogEditorAllHostsState op vdb
    (readCatalogEditorSetupRequests opA opA.hosts []).map fun rc => (opA, rc)
  else
    match readCatalogEditorInitiatorLoop vdb op.initiator
        { op with catalogPathMap := ([] : List (String × String)) } with
    | .error e => .error e
    | .ok opB =>
      (readCatalogEditorSetupRequests opB opB.hosts []).map fun rc => (opB, rc)

theorem readCatalogEditorPrepare_noInitiator (op : NMAReadCatalogEditorOp)
    (vdb : VCoordinationDatabase) (h : op.initiator = []) :
    readCatalogEditorPrepare op vdb =
      (readCatalogEditorSetupRequests (readCatalogEditorAllHostsState op vdb)
        (readCatalogEditorAllHostsState op vdb).hosts []).map
        (fun rc => (readCatalogEditorAllHostsState op vdb, rc)) := by
  unfold readCatalogEditorPrepare
  rw [h]
  rfl

theorem readCatalogEditorPrepare_initiator (op : NMAReadCatalogEditorOp)
    (vdb : VCoordinationDatabase) (i0 : String) (irest : List String)
    (h : op.initiator = i0 :: irest) :
    readCatalogEditorPrepare op vdb =
      match readCatalogEditorInitiatorLoop vdb (i0 :: irest)
          { op with catalogPathMap := ([] : List (String × String)) } with
      | .error e => .error e
      | .ok opB =>
        (readCatalogEditorSetupRequests opB opB.hosts []).map
          fun rc => (opB, rc) := by
  unfold readCatalogEditorPrepare
  rw [h]
  rfl

/-- Re-deriving the all-hosts state from itself is the identity: only
`hosts` and `catalogPathMap` are overwritten, with the same values. -/
theorem readCatalogEditorAllHostsState_idem (op : NMAReadCatalogEditorOp)
    (vdb : VCoordinationDatabase) :
    readCatalogEditorAllHostsState (readCatalogEditorAllHostsState op vdb) vdb =
      readCatalogEditorAllHostsState op vdb := rfl

/-- Loop characterization: on success the loop appends the initiator
hosts, builds the path map by key-determined inserts, and every
initiator host is present in the vdb. -/
theorem readCatalogEditorInitiatorLoop_ok (vdb : VCoordinationDatabase) :
    ∀ (ini : List String) (op opOut : NMAReadCatalogEditorOp),
      readCatalogEditorInitiatorLoop vdb ini op = .ok opOut →
      opOut.name = op.name ∧ opOut.initiator = op.initiator ∧
      opOut.hosts = op.hosts ++ ini ∧
      opOut.catalogPathMap = ini.foldl
        (fun m h => mapInsert m h
          (((mapLookup vdb.HostNodeMap h).getD {}).CatalogPath))
        op.catalogPathMap ∧
      (∀ h ∈ ini, (mapLookup vdb.HostNodeMap h).isSome = true) := by
  intro ini
  induction ini with
  | nil =>
    intro op opOut h
    cases h
    exact ⟨rfl, rfl, by simp, rfl, fun x hx => absurd hx (by simp)⟩
  | cons host rest ih =>
    intro op opOut h
    simp only [readCatalogEditorInitiatorLoop] at h
    cases hv : mapLookup vdb.HostNodeMap host with
    | none => rw [hv] at h; cases h
    | some vnode =>
      rw [hv] at h
      obtain ⟨h1, h2, h3, h4, h5⟩ := ih _ _ h
      refine ⟨by simpa using h1, by simpa using h2, ?_, ?_, ?_⟩
      · rw [h3]; simp
      · rw [h4]
        simp only [List.foldl_cons, hv, Option.getD_some]
      · intro x hx
        rcases List.mem_cons.mp hx with rfl | hx'
        · rw [hv]; rfl
        · exact h5 x hx'

/-- Loop success: when every initiator host is in the vdb, the loop
succeeds. -/
theorem readCatalogEditorInitiatorLoop_ok_of (vdb : VCoordinationDatabase) :
    ∀ (ini : List String) (op : NMAReadCatalogEditorOp),
      (∀ h ∈ ini, (mapLookup vdb.HostNodeMap h).isSome = true) →
      ∃ opOut, readCatalogEditorInitiatorLoop vdb ini op = .ok opOut := by
  intro ini
  induction ini with
  | nil => intro op _; exact ⟨op, rfl⟩
  | cons host rest ih =>
    intro op hall
    have hh := hall host (List.mem_cons_self _ _)
    cases hv : mapLookup vdb.HostNodeMap host with
    | none => rw [hv] at hh; cases hh
    | some vnode =>
      simp only [readCatalogEditorInitiatorLoop, hv]
      exact ih _ fun h hx => hall h (List.mem_cons_of_mem _ hx)

/-- Request-building characterization: when every host has a recorded
catalog path, the built collection is the fold of key-determined
inserts. -/
theorem readCatalogEditorSetupRequests_ok (op : NMAReadCatalogEditorOp) :
    ∀ (hostList : List String) (acc : List (String × HostHTTPRequest)),
      (∀ h ∈ hostList, (mapLookup op.catalogPathMap h).isSome = true) →
      readCatalogEditorSetupRequests op hostList acc =
        .ok (hostList.foldl
          (fun m h => mapInsert m h
            (readCatalogEditorRequest
              ((mapLookup op.catalogPathMap h).getD "")))
          acc) := by
  intro hostList
  induction hostList with
  | nil => intro acc _; rfl
  | cons host rest ih =>
    intro acc hall
    have hh := hall host (List.mem_cons_self _ _)
    cases hv : mapLookup op.catalogPathMap host with
    | none => rw [hv] at hh; cases hh
    | some catalogPath =>
      simp only [readCatalogEditorSetupRequests, hv, List.foldl_cons,
        Option.getD_some]
      exact ih _ fun h hx => hall h (List.mem_cons_of_mem _ hx)

/-- On success, every host in the list had a recorded catalog path. -/
theorem readCatalogEditorSetupRequests_ok_implies
    (op : NMAReadCatalogEditorOp) :
    ∀ (hostList : List String) (acc : List (String × HostHTTPRequest)) rc,
      readCatalogEditorSetupRequests op hostList acc = .ok rc →
      ∀ h ∈ hostList, (mapLookup op.catalogPathMap h).isSome = true := by
  intro hostList
  induction hostList with
  | nil => intro acc rc _ h hx; cases hx
  | cons host rest ih =>
    intro acc rc hok h hx
    simp only [readCatalogEditorSetupRequests] at hok
    cases hv : mapLookup op.catalogPathMap host with
    | none => rw [hv] at hok; cases hok
    | some catalogPath =>
      rw [hv] at hok
      rcases List.mem_cons.mp hx with rfl | hx'
      · rw [hv]; rfl
      · exact ih _ _ hok h hx'

/-- Idempotence of the read-catalog prepare: a second run from the state
left by a successful first run rebuilds the same request collection. -/
theorem readCatalogEditorPrepare_idempotent
    (op : NMAReadCatalogEditorOp) (vdb : VCoordinationDatabase)
    (op1 : NMAReadCatalogEditorOp) (rc : List (String × HostHTTPRequest))
    (h1 : readCatalogEditorPrepare op vdb = .ok (op1, rc)) :
    ∃ op2, readCatalogEditorPrepare op1 vdb = .ok (op2, rc) := by
  cases hini : op.initiator with
  | nil =>
    -- no initiator: both runs assign hosts and path map from the vdb
    rw [readCatalogEditorPrepare_noInitiator op vdb hini] at h1
    cases hset : readCatalogEditorSetupRequests
        (readCatalogEditorAllHostsState op vdb)
        (readCatalogEditorAllHostsState op vdb).hosts [] with
    | error e =>
      rw [hset] at h1
      simp only [Except.map] at h1
      cases h1
    | ok rc0 =>
      rw [hset] at h1
      simp only [Except.map] at h1
      have hpair := Except.ok.inj h1
      have h01 : readCatalogEditorAllHostsState op vdb = op1 :=
        congrArg Prod.fst hpair
      have h02 : rc0 = rc := congrArg Prod.snd hpair
      rw [readCatalogEditorPrepare_noInitiator op1 vdb (by rw [← h01]; exact hini)]
      rw [← h01, readCatalogEditorAllHostsState_idem, hset]
      simp only [Except.map]
      rw [h02]
      exact ⟨_, rfl⟩
  | cons i0 irest =>
    -- initiator branch: the second run appends the initiator hosts again,
    -- but every re-inserted request is already present with the same value
    rw [readCatalogEditorPrepare_initiator op vdb i0 irest hini] at h1
    cases hloop : readCatalogEditorInitiatorLoop vdb (i0 :: irest)
        { op with catalogPathMap := ([] : List (String × String)) } with
    | error e =>
      rw [hloop] at h1
      cases h1
    | ok opB =>
      rw [hloop] at h1
      dsimp only at h1
      obtain ⟨hBname, hBini, hBhosts, hBcpm, hBall⟩ :=
        readCatalogEditorInitiatorLoop_ok vdb (i0 :: irest) _ opB hloop
      simp only at hBname hBini hBhosts hBcpm
      cases hset : readCatalogEditorSetupRequests opB opB.hosts [] with
      | error e =>
        rw [hset] at h1
        simp only [Except.map] at h1
        cases h1
      | ok rc0 =>
        rw [hset] at h1
        simp only [Except.map] at h1
        have hpair := Except.ok.inj h1
        have h01 : opB = op1 := congrArg Prod.fst hpair
        have h02 : rc0 = rc := congrArg Prod.snd hpair
        -- every host of the first run has a recorded catalog path
        have hall1 : ∀ h ∈ opB.hosts,
            (mapLookup opB.catalogPathMap h).isSome = true :=
          readCatalogEditorSetupRequests_ok_implies opB opB.hosts [] rc0 hset
        -- the second run's initiator loop succeeds and reproduces the map
        obtain ⟨opB2, hloop2⟩ := readCatalogEditorInitiatorLoop_ok_of vdb
          (i0 :: irest)
          { opB with catalogPathMap := ([] : List (String × String)) } hBall
        obtain ⟨hB2name, hB2ini, hB2hosts, hB2cpm, -⟩ :=
          readCatalogEditorInitiatorLoop_ok vdb (i0 :: irest) _ opB2 hloop2
        simp only at hB2name hB2ini hB2hosts hB2cpm
        have hcpm2 : opB2.catalogPathMap = opB.catalogPathMap := by
          rw [hB2cpm, hBcpm]
        rw [readCatalogEditorPrepare_initiator op1 vdb i0 irest
          (by rw [← h01, hBini, hini]), ← h01, hloop2]
        dsimp only
        -- the second run's request build succeeds over the duplicated hosts
        have hall2 : ∀ h ∈ opB2.hosts,
            (mapLookup opB2.catalogPathMap h).isSome = true := by
          intro h hx
          rw [hcpm2]
          rw [hB2hosts] at hx
          rcases List.mem_append.mp hx with hx1 | hx2
          · exact hall1 h hx1
          · exact hall1 h
              (by rw [hBhosts]; exact List.mem_append_right _ hx2)
        rw [readCatalogEditorSetupRequests_ok opB2 opB2.hosts [] hall2]
        simp only [Except.map]
        -- relate the first run's collection to its fold form
        have hrc0 : readCatalogEditorSetupRequests opB opB.hosts [] =
            .ok (opB.hosts.foldl
              (fun m h => mapInsert m h
                (readCatalogEditorRequest
                  ((mapLookup opB.catalogPathMap h).getD ""))) []) :=
          readCatalogEditorSetupRequests_ok opB opB.hosts [] hall1
        rw [hset] at hrc0
        have hrc0' : rc0 = opB.hosts.foldl
            (fun m h => mapInsert m h
              (readCatalogEditorRequest
                ((mapLookup opB.catalogPathMap h).getD ""))) [] :=
          Except.ok.inj hrc0
        -- the duplicated fold collapses to the first run's collection
        have hfold2 : opB2.hosts.foldl
            (fun m h => mapInsert m h
              (readCatalogEditorRequest
                ((mapLookup opB2.catalogPathMap h).getD ""))) [] = rc0 := by
          have hfun : (fun (m : List (String × HostHTTPRequest)) (h : String) =>
              mapInsert m h (readCatalogEditorRequest
                ((mapLookup opB2.catalogPathMap h).getD ""))) =
            (fun m h => mapInsert m h (readCatalogEditorRequest
                ((mapLookup opB.catalogPathMap h).getD ""))) := by
            funext m h
            rw [hcpm2]
          rw [hfun, hB2hosts, List.foldl_append, ← hrc0']
          apply foldl_keyfun_absorb
            (fun h => readCatalogEditorRequest
              ((mapLookup opB.catalogPathMap h).getD ""))
          · rw [hrc0']
            exact keyFunMap_foldl _ (keyFunMap_nil _)
          · intro h hx
            rw [hrc0', foldl_keyfun_lookup,
              if_pos (by rw [hBhosts]; exact List.mem_append_right _ hx)]
        rw [hfold2, h02]
        exact ⟨_, rfl⟩

/-! ### `httpsStartReplicationOp.prepare` -/

/-- Modelled from the spec: one entry of the exec context's up-nodes
listing (`execContext.nodesInfo`), whose type declaration is not among
the sources at hand: address, node state, sandbox name. -/
structure NodeInfo where
  Address : String := ""
  State : String := ""
  Sandbox : String := ""
deriving DecidableEq, Repr

/-- Modelled from the spec: the `util.NodeDownState` constant. -/
def nodeDownState : String := "DOWN"

/-- Modelled from the spec: `util.SliceCommon`, defined outside the
sources at hand; it returns the elements common to the two slices. -/
def sliceCommon (l1 l2 : List String) : List String :=
  l1.filter fun h => l2.contains h

/-- The fields of `httpsStartReplicationOp` touched by `prepare`. -/
structure HTTPSStartReplicationOp where
  name : String := "HTTPSStartReplicationOp"
  hosts : List String := []
  useHTTPPassword : Bool := false
  userName : String := ""
  httpsPassword : Option String := none
  hostRequestBodyMap : List (String × ReplicateRequestData) := []
  sourceDB : String := ""
  targetHosts : String := ""
  targetDB : String := ""
  sandbox : String := ""
  targetUserName : String := ""
  targetPassword : Option String := none
  tlsConfig : String := ""
deriving DecidableEq, Repr

/-- The addresses of the not-down nodes whose sandbox matches the
operation's (the `sourceHosts` accumulation loop of `prepare`). -/
def replicationSourceAddresses (op : HTTPSStartReplicationOp)
    (nodesInfo : List NodeInfo) : List String :=
  (nodesInfo.filter fun node =>
    ¬(node.State = nodeDownState) ∧ node.Sandbox = op.sandbox).map
    fun node => node.Address

/-- The marshalled `replicateRequestData` body built by
`setupRequestBody` for every host (it does not depend on the host). -/
def startReplicationRequestBody (op : HTTPSStartReplicationOp) :
    ReplicateRequestData :=
  { TargetHost := op.targetHosts
    TargetDB := op.targetDB
    TargetUserName := op.targetUserName
    TargetPassword := op.targetPassword
    TLSConfig := op.tlsConfig }

/-- `httpsStartReplicationOp.setupRequestBody`: a fresh map from host to
marshalled body. -/
def startReplicationSetupRequestBody (op : HTTPSStartReplicationOp)
    (hostList : List String) : List (String × ReplicateRequestData) :=
  hostList.foldl
    (fun m host => mapInsert m host (startReplicationRequestBody op)) []

/-- `httpsStartReplicationOp.setupClusterHTTPRequest`: a POST on the
database `replicate/start` endpoint per host, with credentials when
password auth is in use, and the host's body from the body map. -/
def startReplicationSetupRequests (op : HTTPSStartReplicationOp)
    (hostList : List String) : List (String × HostHTTPRequest) :=
  hostList.foldl
    (fun m host => mapInsert m host
      { Method := .POST, Endpoint := .dbHTTPS, Path := "replicate/start",
        Username := if op.useHTTPPassword then op.userName else "",
        Password := if op.useHTTPPassword then op.httpsPassword else none,
        RequestData := mapLookup op.hostRequestBodyMap host }) []

/-- `httpsStartReplicationOp.prepare`: error when the exec context has no
node info; compute the up source hosts matching the sandbox, intersect
with `op.hosts`, error when empty; otherwise keep only the first common
host, rebuild the body map and the request collection for it. -/
def startReplicationPrepare (op : HTTPSStartReplicationOp)
    (nodesInfo : List NodeInfo) :
    Except ErrAtom (HTTPSStartReplicationOp × List (String × HostHTTPRequest)) :=
  if nodesInfo.length = 0 then
    .error (.noHostsInExecContextErr op.name)
  else
    match sliceCommon op.hosts (replicationSourceAddresses op nodesInfo) with
    | [] =>
      .error (if op.sandbox = "" then .noUpHostsErr op.name op.sourceDB
              else .noUpHostsInSandboxErr op.name op.sandbox)
    | h0 :: _ =>
      let opH := { op with hosts := [h0] }
      let opS := { opH with
        hostRequestBodyMap := startReplicationSetupRequestBody opH opH.hosts }
      .ok (opS, startReplicationSetupRequests opS opS.hosts)

/-- Idempotence of the replication prepare: a second run from the state
left by a successful first run rebuilds the same request collection (the
chosen host is up, so it is chosen again). -/
theorem startReplicationPrepare_idempotent
    (op : HTTPSStartReplicationOp) (nodesInfo : List NodeInfo)
    (op1 : HTTPSStartReplicationOp) (rc : List (String × HostHTTPRequest))
    (h1 : startReplicationPrepare op nodesInfo = .ok (op1, rc)) :
    ∃ op2, startReplicationPrepare op1 nodesInfo = .ok (op2, rc) := by
  unfold startReplicationPrepare at h1 ⊢
  by_cases hn : nodesInfo.length = 0
  · rw [if_pos hn] at h1
    cases h1
  · rw [if_neg hn] at h1
    rw [if_neg hn]
    cases hsc : sliceCommon op.hosts
        (replicationSourceAddresses op nodesInfo) with
    | nil =>
      rw [hsc] at h1
      cases h1
    | cons h0 t =>
      rw [hsc] at h1
      dsimp only at h1
      have hpair := Except.ok.inj h1
      have h01 := congrArg Prod.fst hpair
      have h02 := congrArg Prod.snd hpair
      simp only at h01 h02
      -- the chosen host is among the up source addresses
      have hmem : (replicationSourceAddresses op nodesInfo).contains h0 = true := by
        have hin : h0 ∈ sliceCommon op.hosts
            (replicationSourceAddresses op nodesInfo) := by
          rw [hsc]
          exact List.mem_cons_self _ _
        unfold sliceCommon at hin
        exact (List.mem_filter.mp hin).2
      rw [← h01]
      dsimp only
      have haddr : replicationSourceAddresses
          { op with
            hosts := [h0]
            hostRequestBodyMap := startReplicationSetupRequestBody
              { op with hosts := [h0] } [h0] } nodesInfo =
          replicationSourceAddresses op nodesInfo := rfl
      rw [haddr]
      have hsc2 : sliceCommon [h0]
          (replicationSourceAddresses op nodesInfo) = [h0] := by
        unfold sliceCommon
        have hmem' : h0 ∈ replicationSourceAddresses op nodesInfo := by
          simpa using hmem
        simp [hmem']
      rw [hsc2]
      dsimp only
      rw [← h02]
      exact ⟨_, rfl⟩

/-! ### Claim C9 -/

/-- C9, confirmed: running `prepare` a second time on the state left by a
successful first run, against an unchanged exec context, produces an
equal request collection — for `nmaReadCatalogEditorOp.prepare` (either
branch: empty or non-empty initiator list) and for
`httpsStartReplicationOp.prepare`.  Request collections are maps, so the
duplicate `op.hosts` entries appended by the initiator branch re-insert
identical requests and the built collection is unchanged. -/
theorem c9_prepare_idempotent :
    (∀ (op : NMAReadCatalogEditorOp) (vdb : VCoordinationDatabase)
        (op1 : NMAReadCatalogEditorOp) (rc : List (String × HostHTTPRequest)),
      readCatalogEditorPrepare op vdb = .ok (op1, rc) →
      ∃ op2, readCatalogEditorPrepare op1 vdb = .ok (op2, rc))
    ∧ (∀ (op : HTTPSStartReplicationOp) (nodesInfo : List NodeInfo)
        (op1 : HTTPSStartReplicationOp) (rc : List (String × HostHTTPRequest)),
      startReplicationPrepare op nodesInfo = .ok (op1, rc) →
      ∃ op2, startReplicationPrepare op1 nodesInfo = .ok (op2, rc)) :=
  ⟨readCatalogEditorPrepare_idempotent, startReplicationPrepare_idempotent⟩

/-- A two-node coordination database for exercising both branches of the
read-catalog prepare. -/
def c9Vdb : VCoordinationDatabase :=
  { HostNodeMap :=
      [("10.0.0.1", { Name := "n1", Address := "10.0.0.1", CatalogPath := "/cat1" }),
       ("10.0.0.2", { Name := "n2", Address := "10.0.0.2", CatalogPath := "/cat2" })] }

/-- The read-catalog request on a concrete catalog path. -/
def c9Request (catalogPath : String) : HostHTTPRequest :=
  { Method := .GET, Endpoint := .nodeMgmt, Path := "catalog/database",
    QueryParams := [("catalog_path", catalogPath)] }

/-- A replication op whose single candidate host is up. -/
def c9OpRep : HTTPSStartReplicationOp :=
  { hosts := ["10.0.0.1"], targetHosts := "t1", targetDB := "tdb" }

/-- One up node in the exec context. -/
def c9Nodes : List NodeInfo :=
  [{ Address := "10.0.0.1", State := "UP", Sandbox := "" }]

/-- C9, witness: second runs of all three concrete prepares (no
initiator, one initiator, replication) reproduce the first run's request
collections. -/
theorem c9_witness :
    (∃ op2, readCatalogEditorPrepare
        { name := "NMAReadCatalogEditorOp", initiator := [],
          hosts := ["10.0.0.1", "10.0.0.2"],
          catalogPathMap := [("10.0.0.1", "/cat1"), ("10.0.0.2", "/cat2")] }
        c9Vdb =
      .ok (op2, [("10.0.0.1", c9Request "/cat1"), ("10.0.0.2", c9Request "/cat2")]))
    ∧ (∃ op2, readCatalogEditorPrepare
        { name := "NMAReadCatalogEditorOp", initiator := ["10.0.0.2"],
          hosts := ["10.0.0.2"],
          catalogPathMap := [("10.0.0.2", "/cat2")] }
        c9Vdb =
      .ok (op2, [("10.0.0.2", c9Request "/cat2")]))
    ∧ (∃ op2, startReplicationPrepare
        { c9OpRep with
          hostRequestBodyMap :=
            [("10.0.0.1",
              { TargetHost := "t1", TargetDB := "tdb" })] }
        c9Nodes =
      .ok (op2,
        [("10.0.0.1",
          { Method := .POST, Endpoint := .dbHTTPS, Path := "replicate/start",
            RequestData := some { TargetHost := "t1", TargetDB := "tdb" } })])) := by
  refine ⟨?_, ?_, ?_⟩
  · exact c9_prepare_idempotent.1
      (makeNMAReadCatalogEditorOpWithInitiator []) c9Vdb _ _ (by rfl)
  · exact c9_prepare_idempotent.1
      (makeNMAReadCatalogEditorOpWithInitiator ["10.0.0.2"]) c9Vdb _ _ (by rfl)
  · exact c9_prepare_idempotent.2 c9OpRep c9Nodes _ _ (by rfl)

/-! ### `generateReviveVDB` (revive-db host reassignment)

Go's `sort.Slice(vNodes, func(i, j int) bool { return vNodes[i].Name <
vNodes[j].Name })` sorts by the byte-wise (equivalently code-point-wise,
as UTF-8 preserves code-point order) lexicographic order of the node
names; `sort.Slice` is not stable, so for nodes with equal names the
result is one of several permutations — the embedding fixes merge sort,
which agrees with the source whenever the names are pairwise distinct
(the theorems assume that). -/

/-- Byte-wise lexicographic order on strings as character lists. -/
def charsLe : List Char → List Char → Bool
  | [], _ => true
  | _ :: _, [] => false
  | a :: as, b :: bs =>
    if a.toNat < b.toNat then true
    else if b.toNat < a.toNat then false
    else charsLe as bs

/-- The `vNodes[i].Name < vNodes[j].Name` comparison as a total
preorder. -/
def nameLe (a b : VCoordinationNode) : Bool :=
  charsLe a.Name.data b.Name.data

theorem charsLe_total : ∀ a b, (charsLe a b || charsLe b a) = true := by
  intro a
  induction a with
  | nil => intro b; simp [charsLe]
  | cons x as ih =>
    intro b
    cases b with
    | nil => simp [charsLe]
    | cons y bs =>
      simp only [charsLe]
      by_cases h1 : x.toNat < y.toNat
      · simp [h1]
      · by_cases h2 : y.toNat < x.toNat
        · simp [h1, h2]
        · simp only [if_neg h1, if_neg h2]
          exact ih bs

theorem charsLe_trans :
    ∀ a b c, charsLe a b = true → charsLe b c = true →
      charsLe a c = true := by
  intro a
  induction a with
  | nil => intro b c _ _; simp [charsLe]
  | cons x as ih =>
    intro b c hab hbc
    cases b with
    | nil => simp [charsLe] at hab
    | cons y bs =>
      cases c with
      | nil => simp [charsLe] at hbc
      | cons z cs =>
        simp only [charsLe] at hab hbc ⊢
        by_cases h1 : x.toNat < y.toNat
        · by_cases h2 : y.toNat < z.toNat
          · rw [if_pos (by omega)]
          · rw [if_neg h2] at hbc
            by_cases h3 : z.toNat < y.toNat
            · rw [if_pos h3] at hbc
              cases hbc
            · rw [if_pos (by omega)]
        · rw [if_neg h1] at hab
          by_cases h1' : y.toNat < x.toNat
          · rw [if_pos h1'] at hab
            cases hab
          · rw [if_neg h1'] at hab
            by_cases h2 : y.toNat < z.toNat
            · rw [if_pos (by omega)]
            · rw [if_neg h2] at hbc
              by_cases h3 : z.toNat < y.toNat
              · rw [if_pos h3] at hbc
                cases hbc
              · rw [if_neg h3] at hbc
                rw [if_neg (by omega), if_neg (by omega)]
                exact ih bs cs hab hbc

theorem nameLe_total : ∀ a b, (nameLe a b || nameLe b a) = true :=
  fun a b => charsLe_total a.Name.data b.Name.data

theorem nameLe_trans :
    ∀ a b c, nameLe a b = true → nameLe b c = true → nameLe a c = true :=
  fun a b c => charsLe_trans a.Name.data b.Name.data c.Name.data

/-- The empty coordination database (`MakeVCoordinationDatabase`). -/
def MakeVCoordinationDatabase : VCoordinationDatabase := {}

/-- The host-assignment loop of `generateReviveVDB`: pair the k-th new
host with the k-th sorted node, record the replaced address, rewrite the
node's address, and insert it under the new host; `none` models the
out-of-range access when the hosts outnumber the nodes. -/
def reviveLoop : List VCoordinationNode → List String →
    List (String × VCoordinationNode) → List String →
    Option (List (String × VCoordinationNode) × List String)
  | _, [], m, old => some (m, old)
  | [], _ :: _, _, _ => none
  | vnode :: ns, newHost :: hs, m, old =>
    reviveLoop ns hs
      (mapInsert m newHost { vnode with Address := newHost })
      (old ++ [vnode.Address])

/-- The node list sorted by node name. -/
def sortedReviveNodes (vdb : VCoordinationDatabase) :
    List VCoordinationNode :=
  (vdb.HostNodeMap.map Prod.snd).mergeSort nameLe

/-- `generateReviveVDB`: build the new coordination database with the
user-ordered host list, assigning hosts to the name-sorted nodes, and
return the replaced old addresses in the same order. -/
def generateReviveVDB (vdb : VCoordinationDatabase)
    (hosts : List String) :
    Option (VCoordinationDatabase × List String) :=
  match reviveLoop (sortedReviveNodes vdb) hosts [] [] with
  | none => none
  | some (m, old) =>
    some ({ MakeVCoordinationDatabase with
      HostList := hosts, HostNodeMap := m }, old)

theorem reviveLoop_spec :
    ∀ (hs : List String) (ns : List VCoordinationNode)
      (m : List (String × VCoordinationNode)) (old : List String),
      hs.length ≤ ns.length →
      reviveLoop ns hs m old =
        some ((hs.zip ns).foldl
          (fun acc p => mapInsert acc p.1 { p.2 with Address := p.1 }) m,
          old ++ (ns.take hs.length).map fun n => n.Address) := by
  intro hs
  induction hs with
  | nil =>
    intro ns m old _
    simp [reviveLoop]
  | cons h0 hs ih =>
    intro ns m old hlen
    cases ns with
    | nil => simp at hlen
    | cons n0 ns =>
      simp only [reviveLoop, List.zip_cons_cons, List.foldl_cons,
        List.length_cons, List.take_succ_cons, List.map_cons]
      rw [ih ns _ _ (by simpa using hlen)]
      simp

theorem reviveLoop_none :
    ∀ (hs : List String) (ns : List VCoordinationNode)
      (m : List (String × VCoordinationNode)) (old : List String),
      ns.length < hs.length → reviveLoop ns hs m old = none := by
  intro hs
  induction hs with
  | nil => intro ns m old hlen; simp at hlen
  | cons h0 hs ih =>
    intro ns m old hlen
    cases ns with
    | nil => rfl
    | cons n0 ns =>
      simp only [reviveLoop]
      exact ih ns _ _ (by simpa using hlen)

theorem foldl_mapInsert_pairs_lookup_notmem {β : Type} :
    ∀ (l : List (String × β)) (m : List (String × β)) (k : String),
      ¬(k ∈ l.map Prod.fst) →
      mapLookup (l.foldl (fun acc p => mapInsert acc p.1 p.2) m) k =
        mapLookup m k := by
  intro l
  induction l with
  | nil => intro m k _; rfl
  | cons p l ih =>
    intro m k hk
    simp only [List.map_cons, List.mem_cons, not_or] at hk
    simp only [List.foldl_cons]
    rw [ih _ _ hk.2, mapLookup_mapInsert_ne _ _ _ _ hk.1]

theorem foldl_mapInsert_pairs_lookup {β : Type} :
    ∀ (l : List (String × β)) (m : List (String × β)) (k : String) (v : β),
      (l.map Prod.fst).Nodup → (k, v) ∈ l →
      mapLookup (l.foldl (fun acc p => mapInsert acc p.1 p.2) m) k =
        some v := by
  intro l
  induction l with
  | nil => intro m k v _ hmem; cases hmem
  | cons p l ih =>
    intro m k v hnd hmem
    simp only [List.map_cons, List.nodup_cons] at hnd
    simp only [List.foldl_cons]
    rcases List.mem_cons.mp hmem with rfl | hmem'
    · rw [foldl_mapInsert_pairs_lookup_notmem l _ k (by simpa using hnd.1)]
      exact mapLookup_mapInsert_self _ _ _
    · exact ih _ _ _ hnd.2 hmem'

theorem foldl_mapInsert_pairs_forall {β : Type}
    {P : String × β → Prop} :
    ∀ (l : List (String × β)) (m : List (String × β)),
      (∀ kv ∈ m, P kv) → (∀ kv ∈ l, P kv) →
      ∀ kv ∈ l.foldl (fun acc p => mapInsert acc p.1 p.2) m, P kv := by
  intro l
  induction l with
  | nil => intro m hm _; exact hm
  | cons p l ih =>
    intro m hm hl
    simp only [List.foldl_cons]
    refine ih _ ?_ fun kv hkv => hl kv (List.mem_cons_of_mem _ hkv)
    have hp : P (p.1, p.2) := hl p (List.mem_cons_self _ _)
    exact mapInsert_forall hm hp

theorem zip_getElem? {α β : Type} :
    ∀ (l1 : List α) (l2 : List β) (k : Nat) (a : α) (b : β),
      l1[k]? = some a → l2[k]? = some b →
      (l1.zip l2)[k]? = some (a, b) := by
  intro l1
  induction l1 with
  | nil => intro l2 k a b h1 _; simp at h1
  | cons x l1 ih =>
    intro l2 k a b h1 h2
    cases l2 with
    | nil => simp at h2
    | cons y l2 =>
      cases k with
      | zero =>
        simp only [List.getElem?_cons_zero, Option.some.injEq] at h1 h2
        simp [List.zip_cons_cons, h1, h2]
      | succ k =>
        simp only [List.getElem?_cons_succ] at h1 h2
        simp only [List.zip_cons_cons, List.getElem?_cons_succ]
        exact ih _ _ _ _ h1 h2

/-! ### Claim C10 -/

/-- C10, confirmed (the out-of-range access of an over-long host list is
modelled as `none`): with pairwise-distinct node names, distinct new
hosts, and exactly as many hosts as nodes, `generateReviveVDB` succeeds;
the sorted node list is a permutation of the old nodes, strictly
ascending by name (so its k-th entry is the node with the k-th smallest
name); the k-th input host is mapped to that k-th node with its
`Address` rewritten to equal its key; the returned `oldHosts` holds the
replaced addresses in the same order; and a host list longer than the
node count yields `none`. -/
theorem c10_generateReviveVDB
    (vdb : VCoordinationDatabase) (hosts : List String)
    (hnames : (vdb.HostNodeMap.map fun kv => kv.2.Name).Nodup)
    (hhosts : hosts.Nodup)
    (hlen : hosts.length = vdb.HostNodeMap.length) :
    ∃ newVDB oldHosts,
      generateReviveVDB vdb hosts = some (newVDB, oldHosts) ∧
      newVDB.HostList = hosts ∧
      oldHosts.length = hosts.length ∧
      (sortedReviveNodes vdb).Perm (vdb.HostNodeMap.map Prod.snd) ∧
      List.Pairwise (fun a b => nameLe a b = true ∧ ¬(a.Name = b.Name))
        (sortedReviveNodes vdb) ∧
      (∀ (k : Nat) (h : String) (n : VCoordinationNode),
        hosts[k]? = some h →
        (sortedReviveNodes vdb)[k]? = some n →
        mapLookup newVDB.HostNodeMap h = some { n with Address := h } ∧
        oldHosts[k]? = some n.Address) ∧
      (∀ kv ∈ newVDB.HostNodeMap, kv.2.Address = kv.1) ∧
      (∀ hosts2 : List String, vdb.HostNodeMap.length < hosts2.length →
        generateReviveVDB vdb hosts2 = none) := by
  have hnslen : (sortedReviveNodes vdb).length = vdb.HostNodeMap.length := by
    unfold sortedReviveNodes
    rw [List.length_mergeSort, List.length_map]
  have hperm : (sortedReviveNodes vdb).Perm (vdb.HostNodeMap.map Prod.snd) :=
    List.mergeSort_perm _ _
  have hlen' : hosts.length ≤ (sortedReviveNodes vdb).length := by omega
  have hloop := reviveLoop_spec hosts (sortedReviveNodes vdb) [] [] hlen'
  refine ⟨{ MakeVCoordinationDatabase with
      HostList := hosts
      HostNodeMap := (hosts.zip (sortedReviveNodes vdb)).foldl
        (fun acc p => mapInsert acc p.1 { p.2 with Address := p.1 }) [] },
    ((sortedReviveNodes vdb).take hosts.length).map fun n => n.Address,
    ?_, rfl, ?_, hperm, ?_, ?_, ?_, ?_⟩
  · unfold generateReviveVDB
    rw [hloop]
    simp
  · rw [List.length_map, List.length_take]
    exact min_eq_left hlen'
  · -- sorted and name-distinct
    have hsorted : List.Pairwise (fun a b => nameLe a b = true)
        (sortedReviveNodes vdb) :=
      List.sorted_mergeSort nameLe_trans nameLe_total _
    have hnames' : ((vdb.HostNodeMap.map Prod.snd).map
        (fun n => n.Name)).Nodup := by
      rw [List.map_map]
      exact hnames
    have hpermN : ((sortedReviveNodes vdb).map fun n => n.Name).Perm
        ((vdb.HostNodeMap.map Prod.snd).map fun n => n.Name) :=
      hperm.map _
    have hnd : ((sortedReviveNodes vdb).map fun n => n.Name).Nodup :=
      hpermN.nodup_iff.mpr hnames'
    have hne : List.Pairwise (fun a b => ¬(a.Name = b.Name))
        (sortedReviveNodes vdb) :=
      List.pairwise_map.mp hnd
    exact hsorted.and hne
  · -- the k-th host maps to the k-th sorted node
    intro k h n hk hn
    have hkzip : (hosts.zip (sortedReviveNodes vdb))[k]? = some (h, n) :=
      zip_getElem? _ _ _ _ _ hk hn
    have hkmem : (h, n) ∈ hosts.zip (sortedReviveNodes vdb) :=
      List.getElem?_mem hkzip
    constructor
    · have hfold : (hosts.zip (sortedReviveNodes vdb)).foldl
          (fun acc p => mapInsert acc p.1 { p.2 with Address := p.1 }) [] =
          ((hosts.zip (sortedReviveNodes vdb)).map
            (fun p => (p.1, { p.2 with Address := p.1 }))).foldl
            (fun acc q => mapInsert acc q.1 q.2) [] := by
        rw [List.foldl_map]
      have hkeys : (((hosts.zip (sortedReviveNodes vdb)).map
          (fun p => (p.1, { p.2 with Address := p.1 }))).map Prod.fst).Nodup := by
        rw [List.map_map]
        have : (Prod.fst ∘ fun p : String × VCoordinationNode =>
            (p.1, { p.2 with Address := p.1 })) =
            (Prod.fst : String × VCoordinationNode → String) := by
          funext p; rfl
        rw [this, List.map_fst_zip _ _ hlen']
        exact hhosts
      have hmem' : (h, { n with Address := h }) ∈
          (hosts.zip (sortedReviveNodes vdb)).map
            (fun p => (p.1, { p.2 with Address := p.1 })) :=
        List.mem_map_of_mem _ hkmem
      simp only [hfold]
      exact foldl_mapInsert_pairs_lookup _ _ _ _ hkeys hmem'
    · have hklt : k < hosts.length :=
        (List.getElem?_eq_some.mp hk).1
      rw [List.getElem?_map, List.getElem?_take, if_pos hklt, hn]
      rfl
  · -- every entry is keyed by its node's (rewritten) address
    intro kv hkv
    have hfold : (hosts.zip (sortedReviveNodes vdb)).foldl
        (fun acc p => mapInsert acc p.1 { p.2 with Address := p.1 }) [] =
        ((hosts.zip (sortedReviveNodes vdb)).map
          (fun p => (p.1, { p.2 with Address := p.1 }))).foldl
          (fun acc q => mapInsert acc q.1 q.2) [] := by
      rw [List.foldl_map]
    rw [hfold] at hkv
    refine foldl_mapInsert_pairs_forall
      (P := fun kv => kv.2.Address = kv.1) _ _
      (by intro kv h; cases h) ?_ kv hkv
    intro q hq
    rcases List.mem_map.mp hq with ⟨p, hp, rfl⟩
    rfl
  · -- an over-long host list hits the out-of-range access
    intro hosts2 hlen2
    unfold generateReviveVDB
    rw [reviveLoop_none hosts2 (sortedReviveNodes vdb) [] [] (by omega)]

/-- Two nodes whose names are given out of order. -/
def c10Vdb : VCoordinationDatabase :=
  { HostNodeMap :=
      [("192.168.1.103",
        { Name := "v_test_db_node0003", Address := "192.168.1.103",
          CatalogPath := "/c3" }),
       ("192.168.1.101",
        { Name := "v_test_db_node0001", Address := "192.168.1.101",
          CatalogPath := "/c1" })] }

/-- C10, witness: the theorem applied to the two-node database and two
fresh hosts, all hypotheses checked by computation. -/
theorem c10_witness :
    ∃ newVDB oldHosts,
      generateReviveVDB c10Vdb ["10.1.10.2", "10.1.10.1"] =
        some (newVDB, oldHosts) ∧
      newVDB.HostList = ["10.1.10.2", "10.1.10.1"] ∧
      oldHosts.length = (["10.1.10.2", "10.1.10.1"] : List String).length ∧
      (sortedReviveNodes c10Vdb).Perm (c10Vdb.HostNodeMap.map Prod.snd) ∧
      List.Pairwise (fun a b => nameLe a b = true ∧ ¬(a.Name = b.Name))
        (sortedReviveNodes c10Vdb) ∧
      (∀ (k : Nat) (h : String) (n : VCoordinationNode),
        (["10.1.10.2", "10.1.10.1"] : List String)[k]? = some h →
        (sortedReviveNodes c10Vdb)[k]? = some n →
        mapLookup newVDB.HostNodeMap h = some { n with Address := h } ∧
        oldHosts[k]? = some n.Address) ∧
      (∀ kv ∈ newVDB.HostNodeMap, kv.2.Address = kv.1) ∧
      (∀ hosts2 : List String, c10Vdb.HostNodeMap.length < hosts2.length →
        generateReviveVDB c10Vdb hosts2 = none) := by
  exact c10_generateReviveVDB c10Vdb ["10.1.10.2", "10.1.10.1"]
    (by decide) (by decide) (by decide)

end VCluster
